import Mathlib

/-!
# Streaming pprof parser (`pkg/convert/pprof/streaming/parser_streaming.go`)

A shallow embedding of `MoleculeParser` and the properties of its cache
rotation, tree building, label handling and output mapping.

Conventions of the embedding.

* Go byte strings (`[]byte`, `string`) are `String`.
* `int64` / `int` are `Int`; `uint64` is `Nat`; conversions are written out
  (`toUint64`, `toInt64`).
* A Go `map` is an association list; a `range` over it visits the list in
  order, and theorems quantify over every list, hence over every order.
* A function that can hit a runtime panic (slice index out of range, integer
  division by zero) returns `Option` (`none` is the panic) or an `Outcome`.
* The storage sink is the list of the `PutInput`s it has received.
* `prev.Diff(t)` writes its result into `prev`, a tree of the previous
  generation: the contents of that generation travel, with the sink, as the
  state of the output walk (`PutState`).
-/

namespace Streaming

/-! ## Data model -/

/-- Byte strings of the profile's string table. -/
abbrev Bytes := String

/-- Result of a Go call that returns `error`, or unwinds with a panic. -/
inductive Outcome where
  | nil
  | err (msg : String)
  | panic
deriving DecidableEq, Repr

/-- Go `valueType`: the field `Type` is spelled `type`. -/
structure valueType where
  type : Int
  unit : Int
deriving DecidableEq, Repr

/-- Go `label`: key and string-value indices into the string table. -/
structure label where
  k : Int
  v : Int
deriving DecidableEq, Repr

/-- Go `Labels`. -/
abbrev Labels := List label

/-- Go `function`. -/
structure function where
  id : Nat
  name : Int
deriving DecidableEq, Repr

/-- Go `location`. -/
structure location where
  id : Nat
  fn1 : Nat
  extraFn : List Nat
deriving DecidableEq, Repr

/-- Go `sample`, the reused scratch accumulator. -/
structure sample where
  tmpValues : List Int
  tmpLabels : Labels
  tmpStack : List Bytes
deriving DecidableEq, Repr

/-- Modelled from the spec: `sample.resetSample` is not in the source file;
the accumulator is "reset (not reallocated) at the start of every sample". -/
def sample.resetSample (_s : sample) : sample :=
  { tmpValues := [], tmpLabels := [], tmpStack := [] }

/-- Conversion `uint64(x)` of an `int64`. -/
def toUint64 (x : Int) : Nat := (x % 2 ^ 64).toNat

/-- Conversion `int64(n)` of a `uint64`. -/
def toInt64 (n : Nat) : Int :=
  if n % 2 ^ 64 < 2 ^ 63 then ((n % 2 ^ 64 : Nat) : Int) else ((n % 2 ^ 64 : Nat) : Int) - 2 ^ 64

/-- Modelled from the spec: `tree.Tree` is an external collaborator that
"supports insertStack(stack, value)"; a tree is represented by the sequence
of `InsertStack` calls it has received. -/
abbrev Tree := List (List Bytes × Nat)

/-- Modelled from the spec: a freshly created tree has received nothing. -/
def Tree.New : Tree := []

/-- Modelled from the spec: `insertStack(stack, value)` accumulates the
weight `value` along `stack`. -/
def Tree.InsertStack (t : Tree) (stack : List Bytes) (v : Nat) : Tree :=
  t ++ [(stack, v)]

/-- Total weight a tree has received. -/
def Tree.weight (t : Tree) : Nat := (t.map Prod.snd).sum

/-- Modelled from the spec: a cache entry is "{LabelSet, Tree}". -/
structure LabelsCacheEntry where
  Labels : Labels
  Tree : Tree
deriving DecidableEq, Repr

/-- Modelled from the spec: the tree cache is a "mapping metric-type-index →
mapping label-set-hash → Cache Entry". -/
abbrev LabelsCache := List (Int × List (Nat × LabelsCacheEntry))

/-- Get-or-create of one entry of the inner map, applying `f` to its tree. -/
def upsertEntry (h : Nat) (l : Labels) (f : Tree → Tree) :
    List (Nat × LabelsCacheEntry) → List (Nat × LabelsCacheEntry)
  | [] => [(h, { Labels := l, Tree := f Tree.New })]
  | (h', e) :: es =>
    if h' = h then (h', { e with Tree := f e.Tree }) :: es
    else (h', e) :: upsertEntry h l f es

/-- Modelled from the spec: `LabelsCache.GetOrCreateTree` "look up or create a
tree keyed by (metric, label-set)"; the returned tree pointer is then mutated
by the caller, which is the argument `f`. The label-set hash is the
parameter `hash` (`Labels.Hash` is not in the source file). -/
def LabelsCache.GetOrCreateTree (hash : Labels → Nat) (c : LabelsCache) (sampleType : Int)
    (l : Labels) (f : Tree → Tree) : LabelsCache :=
  match c with
  | [] => [(sampleType, [(hash l, { Labels := l, Tree := f Tree.New })])]
  | (ty, es) :: rest =>
    if ty = sampleType then (ty, upsertEntry (hash l) l f es) :: rest
    else (ty, es) :: LabelsCache.GetOrCreateTree hash rest sampleType l f

/-- Modelled from the spec: `LabelsCache.Get`, "look up the previous
generation's entry for (metricType, labelSet-hash)". -/
def LabelsCache.Get (c : LabelsCache) (sampleType : Int) (h : Nat) : Option Tree :=
  match c.lookup sampleType with
  | none => none
  | some es => (es.lookup h).map LabelsCacheEntry.Tree

/-- Write through the tree pointer of the first entry with hash `h`. -/
def setEntryTree (h : Nat) (t : Tree) :
    List (Nat × LabelsCacheEntry) → List (Nat × LabelsCacheEntry)
  | [] => []
  | (h', e) :: es =>
    if h' = h then (h', { e with Tree := t }) :: es
    else (h', e) :: setEntryTree h t es

/-- Write `t` through the tree pointer that `LabelsCache.Get` returns for
(`sampleType`, `h`): the cache afterwards. -/
def LabelsCache.setTree : LabelsCache → Int → Nat → Tree → LabelsCache
  | [], _, _, _ => []
  | (ty, es) :: rest, sampleType, h, t =>
    if ty = sampleType then (ty, setEntryTree h t es) :: rest
    else (ty, es) :: LabelsCache.setTree rest sampleType h t

/-- Modelled from the spec: `LabelsCache.Remove`, "the entry is removed from
the new generation". -/
def LabelsCache.Remove (c : LabelsCache) (sampleType : Int) (h : Nat) : LabelsCache :=
  c.map fun tes =>
    if tes.1 = sampleType then (tes.1, tes.2.filter fun he => he.1 ≠ h) else tes

/-- All entries of a cache as (metric type, label-set hash, entry). -/
def LabelsCache.entries (c : LabelsCache) : List (Int × Nat × LabelsCacheEntry) :=
  c.flatMap fun tes => tes.2.map fun he => (tes.1, he.1, he.2)

/-- Total weight held by the trees of one metric type. -/
def LabelsCache.weight (c : LabelsCache) (sampleType : Int) : Nat :=
  (((c.entries).filter fun e => e.1 = sampleType).map fun e => e.2.2.Tree.weight).sum

/-- Modelled from the spec: `CutLabel(labels, j)` is the "label-set with that
label removed", a copy of `labels` without position `j`. -/
def CutLabel (labels : Labels) (j : Nat) : Labels := labels.eraseIdx j

/-- Modelled from the spec: `profileIDLabel`, the well-known "profile-id"
string, is declared outside the source file. -/
def profileIDLabel : Bytes := "profile_id"

/-- Go `tree.SampleTypeConfig` (declared outside the source file). -/
structure SampleTypeConfig where
  Units : String
  DisplayName : String
  Aggregation : String
  Cumulative : Bool
  Sampled : Bool
deriving DecidableEq, Repr

/-- Go `map[string]string`. -/
abbrev StringMap := List (String × String)

/-- Assignment `m[k] = v` on a Go map. -/
def StringMap.set : StringMap → String → String → StringMap
  | [], k, v => [(k, v)]
  | (k', v') :: m, k, v => if k' = k then (k', v) :: m else (k', v') :: StringMap.set m k v

/-- Read `m[k]` with the comma-ok form. -/
def StringMap.get (m : StringMap) (k : String) : Option String := m.lookup k

/-- Go `storage.PutInput`; `Key` is the label map handed to `segment.NewKey`. -/
structure PutInput where
  StartTime : Nat
  EndTime : Nat
  SpyName : String
  Val : Tree
  AggregationType : String
  SampleRate : Nat
  Units : String
  Key : StringMap
deriving DecidableEq, Repr

/-- The storage sink: every `PutInput` it has received, oldest first. -/
abbrev Sink := List PutInput

/-- What `put` acts on besides the parser's own fields: the storage sink and
the contents of the previous generation, whose trees `prev.Diff(t)` writes
to. -/
abbrev PutState := Sink × LabelsCache

/-- Modelled from the spec: the Symbol Index built by `NewFinder`, "id →
(function ids / string index) lookup built from the decoded function/location
tables". -/
structure finder where
  functions : List function
  locations : List location
deriving DecidableEq, Repr

/-- Modelled from the spec: `NewFinder(functions, locations)`. -/
def NewFinder (functions : List function) (locations : List location) : finder :=
  { functions := functions, locations := locations }

/-- Modelled from the spec: `findLocation(id) -> (primaryFunction,
extraFunctions, found)`. -/
def finder.FindLocation (f : finder) (lID : Nat) : Option location :=
  f.locations.find? fun l => l.id = lID

/-- Modelled from the spec: `findFunction(id) -> (nameIndex, found)`. -/
def finder.FindFunction (f : finder) (fID : Nat) : Option function :=
  f.functions.find? fun fn => fn.id = fID

/-- External collaborators the source file calls but does not define.
`Diff prev t` is the tree `prev.Diff(t)` computes; the source notes that "the
result is written to prev, t is not changed". -/
structure Env where
  hash : Labels → Nat
  Diff : Tree → Tree → Tree
  putter : Sink → PutInput → Option String

/-- Go `MoleculeParser` (decode buffers omitted). -/
structure MoleculeParser where
  spyName : String
  labels : StringMap
  skipExemplars : Bool
  sampleTypes : List (String × SampleTypeConfig)
  sampleTypesFilter : String → Bool
  previousCache : LabelsCache
  startTime : Nat
  endTime : Nat
  strings : List Bytes
  profileIDLabelIndex : Int
  sampleTypesParsed : List valueType
  periodType : valueType
  period : Int
  functions : List function
  locations : List location
  indexes : List Nat
  types : List Int
  tmpSample : sample
  finder : finder

/-- Go `filterKnownSamples`. -/
def filterKnownSamples (sampleTypes : List (String × SampleTypeConfig)) : String → Bool :=
  fun s => (sampleTypes.lookup s).isSome

/-- Go `ParserConfig` (the `Putter` is `Env.putter`). -/
structure ParserConfig where
  SpyName : String
  Labels : StringMap
  SkipExemplars : Bool
  SampleTypes : List (String × SampleTypeConfig)

/-- Go `NewStreamingParser`: every field not listed has Go's zero value. -/
def NewStreamingParser (config : ParserConfig) : MoleculeParser :=
  { spyName := config.SpyName
    labels := config.Labels
    sampleTypes := config.SampleTypes
    skipExemplars := config.SkipExemplars
    previousCache := []
    sampleTypesFilter := filterKnownSamples config.SampleTypes
    startTime := 0
    endTime := 0
    strings := []
    profileIDLabelIndex := 0
    sampleTypesParsed := []
    periodType := { type := 0, unit := 0 }
    period := 0
    functions := []
    locations := []
    indexes := []
    types := []
    tmpSample := { tmpValues := [], tmpLabels := [], tmpStack := [] }
    finder := NewFinder [] [] }

/-! ## Pass 1 and pass 2 callbacks -/

/-- Go `MoleculeParser.addString`. -/
def MoleculeParser.addString (p : MoleculeParser) (s : Bytes) : MoleculeParser :=
  let p1 := if s = profileIDLabel then { p with profileIDLabelIndex := (p.strings.length : Int) } else p
  { p1 with strings := p1.strings ++ [s] }

/-- Go `MoleculeParser.addSampleType`. -/
def MoleculeParser.addSampleType (p : MoleculeParser) (st : valueType) : MoleculeParser :=
  { p with sampleTypesParsed := p.sampleTypesParsed ++ [st] }

/-- Go `MoleculeParser.addPeriodType`. -/
def MoleculeParser.addPeriodType (p : MoleculeParser) (pt : valueType) : MoleculeParser :=
  { p with periodType := pt }

/-- Go `MoleculeParser.addFunction`. -/
def MoleculeParser.addFunction (p : MoleculeParser) (f : function) : MoleculeParser :=
  { p with functions := p.functions ++ [f] }

/-- Go `MoleculeParser.addLocation`. -/
def MoleculeParser.addLocation (p : MoleculeParser) (l : location) : MoleculeParser :=
  { p with locations := p.locations ++ [l] }

/-- Go `MoleculeParser.string`: `p.strings[i]`; the error result is always
nil, `none` is the index-out-of-range panic. -/
def MoleculeParser.string (p : MoleculeParser) (i : Int) : Option Bytes :=
  if 0 ≤ i then p.strings[i.toNat]? else none

/-- Go `MoleculeParser.resolveSampleType`. -/
def MoleculeParser.resolveSampleType (p : MoleculeParser) (v : Int) : Option valueType :=
  p.sampleTypesParsed.find? fun vt => vt.type = v

/-- Go `findLabelIndex`. -/
def findLabelIndexFrom (k : Int) : Labels → Nat → Int
  | [], _ => -1
  | l :: rest, i => if l.k = k then (i : Int) else findLabelIndexFrom k rest (i + 1)

/-- Go `findLabelIndex`: position of the first label with key `k`, else -1. -/
def findLabelIndex (tmpLabels : Labels) (k : Int) : Int :=
  findLabelIndexFrom k tmpLabels 0

/-- Go `reverseStack`: the two-index swap loop, `i` from the front and `j`
from the back, run while `i < j`. -/
def reverseStackLoop : Nat → List Bytes → Nat → Nat → List Bytes
  | 0, s, _, _ => s
  | fuel + 1, s, i, j =>
    if i < j then
      reverseStackLoop fuel ((s.set i (s.getD j "")).set j (s.getD i "")) (i + 1) (j - 1)
    else s

/-- Go `reverseStack`. -/
def reverseStack (s : List Bytes) : List Bytes :=
  reverseStackLoop s.length s 0 (s.length - 1)

/-! ## Tree builder -/

/-- Go `MoleculeParser.createTrees`, the loop `for i, vi := range p.indexes`
from position `i` on; `none` is an index-out-of-range panic on
`tmpValues[vi]` or `p.types[i]`. -/
def MoleculeParser.createTreesLoop (env : Env) (p : MoleculeParser) :
    List Nat → Nat → LabelsCache → Option LabelsCache
  | [], _, newCache => some newCache
  | vi :: rest, i, newCache =>
    match p.tmpSample.tmpValues[vi]? with
    | none => none
    | some x =>
      let v := toUint64 x
      if v = 0 then
        MoleculeParser.createTreesLoop env p rest (i + 1) newCache
      else
        let j := findLabelIndex p.tmpSample.tmpLabels p.profileIDLabelIndex
        match p.types[i]? with
        | none => none
        | some ty =>
          if 0 ≤ j then
            let c1 := newCache.GetOrCreateTree env.hash ty (CutLabel p.tmpSample.tmpLabels j.toNat)
              (fun t => t.InsertStack p.tmpSample.tmpStack v)
            if p.skipExemplars then
              MoleculeParser.createTreesLoop env p rest (i + 1) c1
            else
              MoleculeParser.createTreesLoop env p rest (i + 1)
                (c1.GetOrCreateTree env.hash ty p.tmpSample.tmpLabels
                  (fun t => t.InsertStack p.tmpSample.tmpStack v))
          else
            MoleculeParser.createTreesLoop env p rest (i + 1)
              (newCache.GetOrCreateTree env.hash ty p.tmpSample.tmpLabels
                (fun t => t.InsertStack p.tmpSample.tmpStack v))

/-- Go `MoleculeParser.createTrees`. -/
def MoleculeParser.createTrees (env : Env) (p : MoleculeParser) (newCache : LabelsCache) :
    Option LabelsCache :=
  MoleculeParser.createTreesLoop env p p.indexes 0 newCache

/-! ## Sample accumulator -/

/-- Go `MoleculeParser.addStackFrame`. -/
def MoleculeParser.addStackFrame (p : MoleculeParser) (fID : Nat) : MoleculeParser × Outcome :=
  if fID = 0 then (p, Outcome.nil)
  else
    match p.finder.FindFunction fID with
    | none => (p, Outcome.nil)
    | some f =>
      match p.string f.name with
      | none => (p, Outcome.panic)
      | some name =>
        ({ p with tmpSample := { p.tmpSample with tmpStack := p.tmpSample.tmpStack ++ [name] } },
          Outcome.nil)

/-- Go `MoleculeParser.addStackLocation`, the loop over `loc.extraFn`. -/
def MoleculeParser.addStackFrames : List Nat → MoleculeParser → MoleculeParser × Outcome
  | [], p => (p, Outcome.nil)
  | fID :: rest, p =>
    match p.addStackFrame fID with
    | (p1, Outcome.nil) => MoleculeParser.addStackFrames rest p1
    | r => r

/-- Go `MoleculeParser.addStackLocation`. -/
def MoleculeParser.addStackLocation (p : MoleculeParser) (lID : Nat) : MoleculeParser × Outcome :=
  match p.finder.FindLocation lID with
  | some loc =>
    match p.addStackFrame loc.fn1 with
    | (p1, Outcome.nil) => MoleculeParser.addStackFrames loc.extraFn p1
    | r => r
  | none => (p, Outcome.nil)

/-- `molecule.PackedRepeatedEach` over location ids with the callback of
`parseSample`. -/
def MoleculeParser.addStackLocations : List Nat → MoleculeParser → MoleculeParser × Outcome
  | [], p => (p, Outcome.nil)
  | lID :: rest, p =>
    match p.addStackLocation lID with
    | (p1, Outcome.nil) => MoleculeParser.addStackLocations rest p1
    | r => r

/-- Go `error` value as an `Outcome`. -/
def Outcome.ofError : Option String → Outcome
  | none => Outcome.nil
  | some msg => Outcome.err msg

/-- Decoded view of one field of a sample message, as `molecule.MessageEach`
hands it to the callback of `parseSample`: a packed array yields its
elements and then possibly a decode error; `label` carries the result of
`parseLabel`. -/
inductive SampleField where
  | locationIDBytes (ids : List Nat) (err : Option String)
  | locationIDVarint (id : Nat)
  | valueBytes (vals : List Nat) (err : Option String)
  | valueVarint (n : Nat)
  | label (l : Except String label)
  | other

/-- Decoded view of a sample message: its fields in wire order and the
framing error, if any, that ends the iteration after them. -/
structure SampleMsg where
  fields : List SampleField
  err : Option String

/-- Go `MoleculeParser.parseSample`, the callback given to
`molecule.MessageEach`. -/
def MoleculeParser.parseSampleField (p : MoleculeParser) : SampleField → MoleculeParser × Outcome
  | SampleField.locationIDBytes ids err =>
    match MoleculeParser.addStackLocations ids p with
    | (p1, Outcome.nil) => (p1, Outcome.ofError err)
    | r => r
  | SampleField.locationIDVarint id => p.addStackLocation id
  | SampleField.valueBytes vals err =>
    ({ p with tmpSample := { p.tmpSample with
        tmpValues := p.tmpSample.tmpValues ++ vals.map toInt64 } }, Outcome.ofError err)
  | SampleField.valueVarint n =>
    ({ p with tmpSample := { p.tmpSample with
        tmpValues := p.tmpSample.tmpValues ++ [toInt64 n] } }, Outcome.nil)
  | SampleField.label (Except.error e) => (p, Outcome.err e)
  | SampleField.label (Except.ok l) =>
    if l.v ≠ 0 then
      ({ p with tmpSample := { p.tmpSample with tmpLabels := p.tmpSample.tmpLabels ++ [l] } },
        Outcome.nil)
    else (p, Outcome.nil)
  | SampleField.other => (p, Outcome.nil)

/-- `molecule.MessageEach` with the callback of `parseSample`. -/
def MoleculeParser.parseSampleFields :
    List SampleField → Option String → MoleculeParser → MoleculeParser × Outcome
  | [], err, p => (p, Outcome.ofError err)
  | f :: rest, err, p =>
    match p.parseSampleField f with
    | (p1, Outcome.nil) => MoleculeParser.parseSampleFields rest err p1
    | r => r

/-- Go `MoleculeParser.parseSample`. -/
def MoleculeParser.parseSample (env : Env) (p : MoleculeParser) (buffer : SampleMsg)
    (newCache : LabelsCache) : MoleculeParser × LabelsCache × Outcome :=
  let p0 := { p with tmpSample := p.tmpSample.resetSample }
  match MoleculeParser.parseSampleFields buffer.fields buffer.err p0 with
  | (p1, Outcome.panic) => (p1, newCache, Outcome.panic)
  | (p1, err) =>
    let p2 := { p1 with tmpSample := { p1.tmpSample with
      tmpStack := reverseStack p1.tmpSample.tmpStack } }
    match p2.createTrees env newCache with
    | none => (p2, newCache, Outcome.panic)
    | some c => (p2, c, err)

/-- Modelled from the spec: the field step of `parseSampleVT` (not in the
source file): locations are resolved through the Symbol Index, values are
collected, and "for each label, skip sentinel (key==0) entries, others are
appended as-is". -/
def MoleculeParser.parseSampleVTField (p : MoleculeParser) :
    SampleField → MoleculeParser × Outcome
  | SampleField.locationIDBytes ids err =>
    match MoleculeParser.addStackLocations ids p with
    | (p1, Outcome.nil) => (p1, Outcome.ofError err)
    | r => r
  | SampleField.locationIDVarint id => p.addStackLocation id
  | SampleField.valueBytes vals err =>
    ({ p with tmpSample := { p.tmpSample with
        tmpValues := p.tmpSample.tmpValues ++ vals.map toInt64 } }, Outcome.ofError err)
  | SampleField.valueVarint n =>
    ({ p with tmpSample := { p.tmpSample with
        tmpValues := p.tmpSample.tmpValues ++ [toInt64 n] } }, Outcome.nil)
  | SampleField.label (Except.error e) => (p, Outcome.err e)
  | SampleField.label (Except.ok l) =>
    if l.k ≠ 0 then
      ({ p with tmpSample := { p.tmpSample with tmpLabels := p.tmpSample.tmpLabels ++ [l] } },
        Outcome.nil)
    else (p, Outcome.nil)
  | SampleField.other => (p, Outcome.nil)

/-- Modelled from the spec: the field iteration of `parseSampleVT`. -/
def MoleculeParser.parseSampleVTFields :
    List SampleField → Option String → MoleculeParser → MoleculeParser × Outcome
  | [], err, p => (p, Outcome.ofError err)
  | f :: rest, err, p =>
    match p.parseSampleVTField f with
    | (p1, Outcome.nil) => MoleculeParser.parseSampleVTFields rest err p1
    | r => r

/-- Modelled from the spec: `parseSampleVT` is not in the source file. Per
sample the accumulator is reset, the fields are decoded ("any malformed field
fails the whole call with a decode error"), the stack is reversed and the
tree builder runs. -/
def MoleculeParser.parseSampleVT (env : Env) (p : MoleculeParser) (buffer : SampleMsg)
    (newCache : LabelsCache) : MoleculeParser × LabelsCache × Outcome :=
  let p0 := { p with tmpSample := p.tmpSample.resetSample }
  match MoleculeParser.parseSampleVTFields buffer.fields buffer.err p0 with
  | (p1, Outcome.nil) =>
    let p2 := { p1 with tmpSample := { p1.tmpSample with
      tmpStack := reverseStack p1.tmpSample.tmpStack } }
    match p2.createTrees env newCache with
    | none => (p2, newCache, Outcome.panic)
    | some c => (p2, c, Outcome.nil)
  | (p1, out) => (p1, newCache, out)

/-- Go `MoleculeParser.parseSamples`: `molecule.MessageEach` over the
top-level sample fields, then the outcome that ends the iteration. -/
def MoleculeParser.parseSamples (env : Env) :
    List SampleMsg → Outcome → MoleculeParser → LabelsCache →
      MoleculeParser × LabelsCache × Outcome
  | [], out, p, newCache => (p, newCache, out)
  | m :: rest, out, p, newCache =>
    match p.parseSampleVT env m newCache with
    | (p1, c1, Outcome.nil) => MoleculeParser.parseSamples env rest out p1 c1
    | r => r

/-! ## Retained columns -/

/-- Go `MoleculeParser.checkKnownSampleTypes`, the loop
`for i, s := range p.sampleTypesParsed` from position `i` on. -/
def MoleculeParser.checkKnownSampleTypesLoop :
    List valueType → Nat → MoleculeParser → MoleculeParser × Outcome
  | [], _, p => (p, Outcome.nil)
  | s :: rest, i, p =>
    match p.string s.type with
    | none => (p, Outcome.panic)
    | some ssType =>
      if p.sampleTypesFilter ssType then
        MoleculeParser.checkKnownSampleTypesLoop rest (i + 1)
          { p with indexes := p.indexes ++ [i], types := p.types ++ [s.type] }
      else
        MoleculeParser.checkKnownSampleTypesLoop rest (i + 1) p

/-- Go `MoleculeParser.checkKnownSampleTypes`. -/
def MoleculeParser.checkKnownSampleTypes (p : MoleculeParser) : MoleculeParser × Outcome :=
  let p0 := { p with indexes := [], types := [] }
  match MoleculeParser.checkKnownSampleTypesLoop p0.sampleTypesParsed 0 p0 with
  | (p1, Outcome.nil) =>
    if p1.indexes.length = 0 then (p1, Outcome.err "unknown sample types")
    else (p1, Outcome.nil)
  | r => r

/-! ## Output mapper -/

/-- Two's-complement wrap of an integer into the `int64` range. -/
def wrapInt64 (x : Int) : Int :=
  if x % 2 ^ 64 < 2 ^ 63 then x % 2 ^ 64 else x % 2 ^ 64 - 2 ^ 64

/-- Conversion `uint32(x)` of an `int64`. -/
def toUint32 (x : Int) : Nat := (x % 2 ^ 32).toNat

/-- Go `MoleculeParser.sampleRate`; `none` is a panic (string index out of
range, or integer division by zero). Durations are in nanoseconds. -/
def MoleculeParser.sampleRate (p : MoleculeParser) : Option Nat :=
  if p.period ≤ 0 ∨ p.periodType.unit ≤ 0 then some 0
  else
    match p.string p.periodType.unit with
    | none => none
    | some u =>
      let sampleUnit : Int :=
        if u = "microseconds" then 1000
        else if u = "milliseconds" then 1000000
        else if u = "seconds" then 1000000000
        else 1
      let d := wrapInt64 (sampleUnit * p.period)
      if d = 0 then none else some (toUint32 (Int.tdiv 1000000000 d))

/-- Go `MoleculeParser.ResolveLabels`, the loop over the labels with the map
built so far; `none` is the index-out-of-range panic of `p.string`. -/
def MoleculeParser.ResolveLabelsLoop (p : MoleculeParser) : Labels → StringMap → Option StringMap
  | [], m => some m
  | l :: rest, m =>
    if l.k ≠ 0 then
      match p.string l.k with
      | none => none
      | some sk =>
        match p.string l.v with
        | none => none
        | some sv => MoleculeParser.ResolveLabelsLoop p rest (m.set sk sv)
    else MoleculeParser.ResolveLabelsLoop p rest m

/-- Go `MoleculeParser.ResolveLabels`. -/
def MoleculeParser.ResolveLabels (p : MoleculeParser) (l : Labels) : Option StringMap :=
  MoleculeParser.ResolveLabelsLoop p l []

/-- Go `MoleculeParser.buildName`; the result is the label map handed to
`segment.NewKey`. -/
def MoleculeParser.buildName (p : MoleculeParser) (sampleTypeName : String)
    (labels : StringMap) : StringMap :=
  let labels1 := p.labels.foldl (fun m kv => m.set kv.1 kv.2) labels
  labels1.set "__name__" ((labels1.get "__name__").getD "" ++ ("." ++ sampleTypeName))

/-- Go `MoleculeParser.put` from `pi.AggregationType = ...` to the end: the
part shared by the cumulative and the non-cumulative path. -/
def MoleculeParser.putWrite (env : Env) (p : MoleculeParser) (st : valueType) (l : Labels)
    (sampleType : String) (sampleTypeConfig : SampleTypeConfig) (pi : PutInput) (s : PutState) :
    PutState × Bool × Outcome :=
  let pi1 := { pi with AggregationType := sampleTypeConfig.Aggregation }
  match (if sampleTypeConfig.Sampled then p.sampleRate else some pi1.SampleRate) with
  | none => (s, false, Outcome.panic)
  | some rate =>
    let pi2 := { pi1 with SampleRate := rate }
    let sampleType1 :=
      if sampleTypeConfig.DisplayName ≠ "" then sampleTypeConfig.DisplayName else sampleType
    match (if sampleTypeConfig.Units ≠ "" then some sampleTypeConfig.Units
           else p.string st.unit) with
    | none => (s, false, Outcome.panic)
    | some units =>
      let pi3 := { pi2 with Units := units }
      match p.ResolveLabels l with
      | none => (s, false, Outcome.panic)
      | some m =>
        let pi4 := { pi3 with Key := p.buildName sampleType1 m }
        ((s.1 ++ [pi4], s.2), sampleTypeConfig.Cumulative,
          Outcome.ofError (env.putter s.1 pi4))

/-- Go `MoleculeParser.put`: the sink and the previous generation after the
call, `keep`, and the error. The state `s` holds the sink and the contents of
the map `p.previousCache` points to during the walk; `prev.Diff(t)` writes its
result into the tree `prev` of that map, before the sink is called. -/
def MoleculeParser.put (env : Env) (p : MoleculeParser) (st : valueType) (l : Labels)
    (t : Tree) (s : PutState) : PutState × Bool × Outcome :=
  match p.string st.type with
  | none => (s, false, Outcome.panic)
  | some sampleType =>
    match p.sampleTypes.lookup sampleType with
    | none => (s, false, Outcome.err "sample value type is unknown")
    | some sampleTypeConfig =>
      let pi : PutInput :=
        { StartTime := p.startTime
          EndTime := p.endTime
          SpyName := p.spyName
          Val := t
          AggregationType := ""
          SampleRate := 0
          Units := ""
          Key := [] }
      if sampleTypeConfig.Cumulative then
        match s.2.Get st.type (env.hash l) with
        | none => (s, true, Outcome.nil)
        | some prev =>
          p.putWrite env st l sampleType sampleTypeConfig { pi with Val := env.Diff prev t }
            (s.1, s.2.setTree st.type (env.hash l) (env.Diff prev t))
      else
        p.putWrite env st l sampleType sampleTypeConfig pi s

/-! ## Cache rotation -/

/-- Go `MoleculeParser.iterate`, the inner loop `for h, e := range entries`
for the metric type `stt` resolved to `t`; `σ` is the state the callback
works on. -/
def iterateEntries {σ : Type} (fn : valueType → Labels → Tree → σ → σ × Bool × Outcome)
    (t : valueType) (stt : Int) :
    List (Nat × LabelsCacheEntry) → LabelsCache → σ → LabelsCache × σ × Outcome
  | [], newCache, s => (newCache, s, Outcome.nil)
  | (h, e) :: rest, newCache, s =>
    match fn t e.Labels e.Tree s with
    | (s1, keep, Outcome.nil) =>
      iterateEntries fn t stt rest (if keep then newCache else newCache.Remove stt h) s1
    | (s1, _, out) => (newCache, s1, out)

/-- Go `MoleculeParser.iterate`, the outer loop
`for stt, entries := range newCache`. -/
def MoleculeParser.iterateTypes {σ : Type} (p : MoleculeParser)
    (fn : valueType → Labels → Tree → σ → σ × Bool × Outcome) :
    List (Int × List (Nat × LabelsCacheEntry)) → LabelsCache → σ → LabelsCache × σ × Outcome
  | [], newCache, s => (newCache, s, Outcome.nil)
  | (stt, entries) :: rest, newCache, s =>
    match p.resolveSampleType stt with
    | none => MoleculeParser.iterateTypes p fn rest newCache s
    | some t =>
      match iterateEntries fn t stt entries newCache s with
      | (c1, s1, Outcome.nil) => MoleculeParser.iterateTypes p fn rest c1 s1
      | r => r

/-- Go `MoleculeParser.iterate`: the walk visits the entries `newCache` holds
when it starts, and `p.previousCache = newCache` runs only when no callback
failed. -/
def MoleculeParser.iterate {σ : Type} (p : MoleculeParser) (newCache : LabelsCache)
    (fn : valueType → Labels → Tree → σ → σ × Bool × Outcome) (s : σ) :
    MoleculeParser × σ × Outcome :=
  match MoleculeParser.iterateTypes p fn newCache newCache s with
  | (c1, s1, Outcome.nil) => ({ p with previousCache := c1 }, s1, Outcome.nil)
  | (_, s1, out) => (p, s1, out)

/-! ## The three passes -/

/-- Callbacks `profileParser.parse` fires in pass 1. -/
inductive StructField where
  | string (s : Bytes)
  | sampleType (st : valueType)
  | periodType (pt : valueType)
deriving DecidableEq, Repr

/-- Callbacks `profileParser.parse` fires in pass 2. -/
inductive TableField where
  | function (f : function)
  | location (l : location)
deriving DecidableEq, Repr

/-- Decoded view of the profile bytes: for every pass the fields its
callbacks receive, in wire order, and the outcome that ends the pass (nil, a
decode error, or a fault inside the decoder). -/
structure Profile where
  structs : List StructField
  structsEnd : Outcome
  period : Int
  tables : List TableField
  tablesEnd : Outcome
  samples : List SampleMsg
  samplesEnd : Outcome

/-- Dispatch of a pass 1 field to `addString`, `addSampleType`,
`addPeriodType`. -/
def MoleculeParser.structField (p : MoleculeParser) : StructField → MoleculeParser
  | StructField.string s => p.addString s
  | StructField.sampleType st => p.addSampleType st
  | StructField.periodType pt => p.addPeriodType pt

/-- Dispatch of a pass 2 field to `addFunction`, `addLocation`. -/
def MoleculeParser.tableField (p : MoleculeParser) : TableField → MoleculeParser
  | TableField.function f => p.addFunction f
  | TableField.location l => p.addLocation l

/-- Go `MoleculeParser.parseStructs`. -/
def MoleculeParser.parseStructs (p : MoleculeParser) (profile : Profile) :
    MoleculeParser × Outcome :=
  let p1 := profile.structs.foldl MoleculeParser.structField p
  match profile.structsEnd with
  | Outcome.nil => ({ p1 with period := profile.period, functions := [], locations := [] },
      Outcome.nil)
  | out => (p1, out)

/-- Go `MoleculeParser.parseFunctionsAndLocations`. -/
def MoleculeParser.parseFunctionsAndLocations (p : MoleculeParser) (profile : Profile) :
    MoleculeParser × Outcome :=
  let p1 := profile.tables.foldl MoleculeParser.tableField p
  match profile.tablesEnd with
  | Outcome.nil => ({ p1 with finder := NewFinder p1.functions p1.locations }, Outcome.nil)
  | out => (p1, out)

/-- Go `MoleculeParser.parsePprofDecompressed` without the deferred
`recover`. The walk starts from the sink and the contents of the previous
generation; when it fails, `p.previousCache` still points to that map, with
its trees as the walk left them. -/
def MoleculeParser.parsePprofDecompressedBody (env : Env) (p : MoleculeParser)
    (profile : Profile) (sink : Sink) : MoleculeParser × Sink × Outcome :=
  let p0 := { p with strings := [], sampleTypesParsed := [] }
  match p0.parseStructs profile with
  | (p1, Outcome.nil) =>
    match p1.parseFunctionsAndLocations profile with
    | (p2, Outcome.nil) =>
      match p2.checkKnownSampleTypes with
      | (p3, Outcome.nil) =>
        match MoleculeParser.parseSamples env profile.samples profile.samplesEnd p3 [] with
        | (p4, newCache, Outcome.nil) =>
          match p4.iterate newCache (p4.put env) (sink, p4.previousCache) with
          | (p5, s5, Outcome.nil) => (p5, s5.1, Outcome.nil)
          | (p5, s5, out) => ({ p5 with previousCache := s5.2 }, s5.1, out)
        | (p4, _, out) => (p4, sink, out)
      | (p3, out) => (p3, sink, out)
    | (p2, out) => (p2, sink, out)
  | (p1, out) => (p1, sink, out)

/-- Go `MoleculeParser.parsePprofDecompressed`: the deferred `recover` turns
a panic into the error "parse panic". -/
def MoleculeParser.parsePprofDecompressed (env : Env) (p : MoleculeParser)
    (profile : Profile) (sink : Sink) : MoleculeParser × Sink × Option String :=
  match p.parsePprofDecompressedBody env profile sink with
  | (p1, s1, Outcome.nil) => (p1, s1, none)
  | (p1, s1, Outcome.err msg) => (p1, s1, some msg)
  | (p1, s1, Outcome.panic) => (p1, s1, some "parse panic")

/-! ## Specification-side definitions -/

/-- The sample type with name index `ty` is configured `Cumulative`. -/
def MoleculeParser.cumulative (p : MoleculeParser) (ty : Int) : Bool :=
  match p.string ty with
  | none => false
  | some name =>
    match p.sampleTypes.lookup name with
    | none => false
    | some cfg => cfg.Cumulative

/-- The entry `e` is removed by a walk over `todo` in which the callback
keeps exactly the metric types accepted by `K`. -/
def droppedBy (resolves : Int → Bool) (K : Int → Bool) (todo : LabelsCache)
    (e : Int × Nat × LabelsCacheEntry) : Bool :=
  todo.any fun tes =>
    tes.1 == e.1 && resolves tes.1 && !K tes.1 && tes.2.any fun he => he.1 == e.2.1

/-- One call `GetOrCreateTree(ty, labels).InsertStack(stack, v)`. -/
structure Insertion where
  ty : Int
  labels : Labels
  stack : List Bytes
  v : Nat
deriving DecidableEq, Repr

/-- Effect of one insertion on a cache generation. -/
def LabelsCache.insert (hash : Labels → Nat) (c : LabelsCache) (ins : Insertion) : LabelsCache :=
  c.GetOrCreateTree hash ins.ty ins.labels (fun t => t.InsertStack ins.stack ins.v)

/-- Effect of a sequence of insertions, performed in order. -/
def LabelsCache.insertAll (hash : Labels → Nat) (c : LabelsCache) (l : List Insertion) :
    LabelsCache :=
  l.foldl (LabelsCache.insert hash) c

/-- Metric type and `uint64` value of the retained columns `cols` (pairs of
`p.types[i]` and `p.indexes[i]`) on which the current sample is nonzero. -/
def MoleculeParser.nonzeroOf (p : MoleculeParser) (cols : List (Int × Nat)) : List (Int × Nat) :=
  (cols.map fun tv => (tv.1, toUint64 (p.tmpSample.tmpValues.getD tv.2 0))).filter
    fun x => x.2 ≠ 0

/-- Retained columns on which the current sample is nonzero. -/
def MoleculeParser.retainedNonzero (p : MoleculeParser) : List (Int × Nat) :=
  p.nonzeroOf (p.types.zip p.indexes)

/-- The insertions the source text of `createTrees` performs for one
retained column of metric type `ty` with nonzero value `v`. -/
def MoleculeParser.columnInsertions (p : MoleculeParser) (tv : Int × Nat) : List Insertion :=
  let j := findLabelIndex p.tmpSample.tmpLabels p.profileIDLabelIndex
  let full : Insertion :=
    { ty := tv.1, labels := p.tmpSample.tmpLabels, stack := p.tmpSample.tmpStack, v := tv.2 }
  if 0 ≤ j then
    let cut : Insertion :=
      { ty := tv.1, labels := CutLabel p.tmpSample.tmpLabels j.toNat,
        stack := p.tmpSample.tmpStack, v := tv.2 }
    if p.skipExemplars then [cut] else [cut, full]
  else [full]

/-- `createTrees` run on each accumulated sample of a call in turn, as
`parseSamples` does. -/
def MoleculeParser.createTreesAll (env : Env) (p : MoleculeParser) :
    List sample → LabelsCache → Option LabelsCache
  | [], c => some c
  | s :: rest, c =>
    match ({ p with tmpSample := s }).createTrees env c with
    | none => none
    | some c1 => MoleculeParser.createTreesAll env p rest c1

/-- Number of trees a sample with a nonzero value reaches per column: two
when it carries a label with key `p.profileIDLabelIndex` and exemplars are
not skipped, else one. -/
def MoleculeParser.multiplicity (p : MoleculeParser) (s : sample) : Nat :=
  if 0 ≤ findLabelIndex s.tmpLabels p.profileIDLabelIndex ∧ p.skipExemplars = false then 2 else 1

/-- Sum over the retained columns of metric type `ty` of the sample's value
as `uint64`. -/
def MoleculeParser.sampleValueOf (p : MoleculeParser) (ty : Int) (s : sample) : Nat :=
  (((p.types.zip p.indexes).filter fun tv => tv.1 = ty).map fun tv =>
    toUint64 (s.tmpValues.getD tv.2 0)).sum

/-- Sum of the raw values of column `vi` across the samples. -/
def rawColumnSum (vi : Nat) (samples : List sample) : Int :=
  (samples.map fun s => s.tmpValues.getD vi 0).sum

/-- The state `q` differs from `p` at most in the scratch sample. -/
def MoleculeParser.onlyTmpSample (p q : MoleculeParser) : Prop :=
  q = { p with tmpSample := q.tmpSample }

/-- The sample-types filter accepts the name of the declared sample type
`vt`. -/
def MoleculeParser.accepts (p : MoleculeParser) (vt : valueType) : Bool :=
  match p.string vt.type with
  | some name => p.sampleTypesFilter name
  | none => false

/-- The declared sample types the filter accepts, each with its position, in
declaration order. -/
def MoleculeParser.retained (p : MoleculeParser) : List (Nat × valueType) :=
  (p.sampleTypesParsed.enumFrom 0).filter fun ivt => p.accepts ivt.2

/-! ## Example data -/

/-- String table of the example profile. -/
def exStrings : List Bytes :=
  ["", "cpu", "nanoseconds", "alloc_objects", "count", "profile_id", "foo", "bar"]

/-- Example configuration: `cpu` is sampled and not cumulative,
`alloc_objects` is cumulative. -/
def exConfig : ParserConfig :=
  { SpyName := "gospy"
    Labels := [("__name__", "app")]
    SkipExemplars := false
    SampleTypes :=
      [("cpu", { Units := "samples", DisplayName := "", Aggregation := "sum",
                 Cumulative := false, Sampled := true }),
       ("alloc_objects", { Units := "objects", DisplayName := "", Aggregation := "sum",
                           Cumulative := true, Sampled := false })] }

/-- Example collaborators: a hash that ignores the order of the labels, a
diff that keeps both operands visible, a sink that never fails. -/
def exEnv : Env :=
  { hash := fun l => (l.map fun x => (x.k.toNat + 1) * 1000 + x.v.toNat).sum
    Diff := fun prev t => prev ++ t
    putter := fun _ _ => none }

/-- Example parser state after passes 1 and 2 and `checkKnownSampleTypes`. -/
def exParser : MoleculeParser :=
  { NewStreamingParser exConfig with
    strings := exStrings
    sampleTypesParsed := [{ type := 1, unit := 2 }, { type := 3, unit := 4 }]
    periodType := { type := 1, unit := 2 }
    period := 10000000
    profileIDLabelIndex := 5
    indexes := [0, 1]
    types := [1, 3] }

/-- Example new generation: one `cpu` entry and one `alloc_objects` entry. -/
def exNewCache : LabelsCache :=
  [(1, [(7007, { Labels := [{ k := 6, v := 7 }], Tree := [(["main", "foo"], 5)] })]),
   (3, [(7007, { Labels := [{ k := 6, v := 7 }], Tree := [(["main", "foo"], 9)] })])]

/-- Example profile whose first pass ends with a decode error. -/
def exBadProfile : Profile :=
  { structs := [StructField.string "", StructField.string "cpu"]
    structsEnd := Outcome.err "unexpected EOF"
    period := 0
    tables := []
    tablesEnd := Outcome.nil
    samples := []
    samplesEnd := Outcome.nil }

/-- Example accumulator contents: value 5 on `cpu`, 0 on `alloc_objects`,
labels `foo=bar` and `profile_id=foo`. -/
def exSampleWithID : sample :=
  { tmpValues := [5, 0]
    tmpLabels := [{ k := 6, v := 7 }, { k := 5, v := 6 }]
    tmpStack := ["main", "foo"] }

/-- Example accumulator contents with value 0 on every retained column. -/
def exSampleZero : sample :=
  { tmpValues := [0, 0]
    tmpLabels := [{ k := 6, v := 7 }]
    tmpStack := ["main", "foo"] }

/-- Configuration of the two-call scenario: exemplars are skipped and `cpu`
is cumulative, so that its entries stay visible in `previousCache`. -/
def exConfigTwoCalls : ParserConfig :=
  { SpyName := "gospy"
    Labels := []
    SkipExemplars := true
    SampleTypes :=
      [("cpu", { Units := "samples", DisplayName := "", Aggregation := "sum",
                 Cumulative := true, Sampled := false })] }

/-- First profile of the two-call scenario: its string table holds
`profile_id` at index 1 and its sample is labelled `profile_id=trace-1`. -/
def exProfileA : Profile :=
  { structs :=
      [StructField.string "", StructField.string "profile_id", StructField.string "cpu",
       StructField.string "nanoseconds", StructField.string "trace-1",
       StructField.string "main",
       StructField.sampleType { type := 2, unit := 3 },
       StructField.periodType { type := 2, unit := 3 }]
    structsEnd := Outcome.nil
    period := 10000000
    tables :=
      [TableField.function { id := 1, name := 5 },
       TableField.location { id := 1, fn1 := 1, extraFn := [] }]
    tablesEnd := Outcome.nil
    samples :=
      [{ fields := [SampleField.locationIDVarint 1, SampleField.valueVarint 5,
                    SampleField.label (Except.ok { k := 1, v := 4 })],
         err := none }]
    samplesEnd := Outcome.nil }

/-- Second profile of the two-call scenario: no string is `profile_id`; index
1 is `foo`, and the sample is labelled `foo=bar`. -/
def exProfileB : Profile :=
  { structs :=
      [StructField.string "", StructField.string "foo", StructField.string "cpu",
       StructField.string "nanoseconds", StructField.string "bar",
       StructField.string "main",
       StructField.sampleType { type := 2, unit := 3 },
       StructField.periodType { type := 2, unit := 3 }]
    structsEnd := Outcome.nil
    period := 10000000
    tables :=
      [TableField.function { id := 1, name := 5 },
       TableField.location { id := 1, fn1 := 1, extraFn := [] }]
    tablesEnd := Outcome.nil
    samples :=
      [{ fields := [SampleField.locationIDVarint 1, SampleField.valueVarint 5,
                    SampleField.label (Except.ok { k := 1, v := 4 })],
         err := none }]
    samplesEnd := Outcome.nil }

/-- Parser state after the first call of the two-call scenario. -/
def exAfterCallA : MoleculeParser :=
  ((NewStreamingParser exConfigTwoCalls).parsePprofDecompressed exEnv exProfileA []).1

/-- Example previous generation holding an `alloc_objects` tree for the
label set `foo=bar`. -/
def exPrevCache : LabelsCache :=
  [(3, [(7007, { Labels := [{ k := 6, v := 7 }], Tree := [(["main", "foo"], 4)] })])]

/-- The labels a sample message decodes to, in wire order. -/
def decodedLabels : List SampleField → List label
  | [] => []
  | SampleField.label (Except.ok l) :: rest => l :: decodedLabels rest
  | _ :: rest => decodedLabels rest

/-- The value `ResolveLabels` is specified to hold for the key string `s`:
the value string of the last label with nonzero key index whose key string
is `s`. -/
def MoleculeParser.resolvedValue (p : MoleculeParser) (l : Labels) (s : String) : Option String :=
  ((l.filter fun x => x.k ≠ 0).reverse.find? fun x => p.string x.k = some s).bind
    fun x => p.string x.v

/-- Example sample message: values 5 and 0, a label with key index 0 and
value index 6, and a label with key index 6 and value index 0. -/
def exSampleMsg : SampleMsg :=
  { fields := [SampleField.valueVarint 5, SampleField.valueVarint 0,
               SampleField.label (Except.ok { k := 0, v := 6 }),
               SampleField.label (Except.ok { k := 6, v := 0 })]
    err := none }

/-- The parser state with `names` appended to the scratch stack. -/
def MoleculeParser.pushStack (p : MoleculeParser) (names : List Bytes) : MoleculeParser :=
  { p with tmpSample := { p.tmpSample with tmpStack := p.tmpSample.tmpStack ++ names } }

/-- The frames the function ids `fIDs` resolve to, in order: the interned
name `strings[name(f)]` of every id that is nonzero and found by
`FindFunction`; the other ids are omitted. -/
def MoleculeParser.frameNames (p : MoleculeParser) (fIDs : List Nat) : List Bytes :=
  fIDs.filterMap fun fID =>
    if fID = 0 then none
    else (p.finder.FindFunction fID).map fun f => p.strings.getD f.name.toNat ""

/-- Example parser with a symbol index: functions 1, 2, 3 are named `leaf`,
`mid`, `root`; location 4 carries function 1 and the extra function ids 0,
2 and 99. -/
def exStackParser : MoleculeParser :=
  { exParser with
    strings := exStrings ++ ["leaf", "mid", "root"]
    finder := NewFinder
      [{ id := 1, name := 8 }, { id := 2, name := 9 }, { id := 3, name := 10 }]
      [{ id := 1, fn1 := 1, extraFn := [] }, { id := 2, fn1 := 2, extraFn := [] },
       { id := 3, fn1 := 3, extraFn := [] }, { id := 4, fn1 := 1, extraFn := [0, 2, 99] }] }

/-- Example sample message whose location ids resolve, in wire order, to
`leaf`, `mid`, `root`; value 5 on `cpu`. -/
def exStackMsg : SampleMsg :=
  { fields := [SampleField.locationIDBytes [1, 2, 3] none, SampleField.valueVarint 5,
               SampleField.valueVarint 0]
    err := none }

/-- Example profile none of whose declared sample types is configured. -/
def exProfileUnknown : Profile :=
  { structs :=
      [StructField.string "", StructField.string "wall", StructField.string "nanoseconds",
       StructField.sampleType { type := 1, unit := 2 },
       StructField.periodType { type := 1, unit := 2 }]
    structsEnd := Outcome.nil
    period := 10000000
    tables := []
    tablesEnd := Outcome.nil
    samples :=
      [{ fields := [SampleField.valueVarint 5], err := none }]
    samplesEnd := Outcome.nil }

/-- Parser state in which `checkKnownSampleTypes` runs on `exProfileUnknown`:
after passes 1 and 2 of a call on a new parser. -/
def exBeforeCheck : MoleculeParser :=
  ((({ NewStreamingParser exConfig with strings := [], sampleTypesParsed := [] }).parseStructs
      exProfileUnknown).1.parseFunctionsAndLocations exProfileUnknown).1

/-- Example parser with three declared sample types, the second of which
(`wall`) is not configured. -/
def exThreeTypes : MoleculeParser :=
  { exParser with
    strings := exStrings ++ ["wall"]
    sampleTypesParsed :=
      [{ type := 1, unit := 2 }, { type := 8, unit := 2 }, { type := 3, unit := 4 }]
    indexes := []
    types := [] }

/-- Example accumulator contents with one value per declared sample type. -/
def exSampleTwoValues : sample :=
  { tmpValues := [5, 7]
    tmpLabels := [{ k := 6, v := 7 }]
    tmpStack := ["main"] }

/-- Duration in nanoseconds of the period unit named `u`: 1 000 for
"microseconds", 1 000 000 for "milliseconds", 1 000 000 000 for "seconds",
and 1 (nanoseconds) for any other string. -/
def unitNs (u : String) : Int :=
  if u = "microseconds" then 1000
  else if u = "milliseconds" then 1000000
  else if u = "seconds" then 1000000000
  else 1

/-- Example parser whose period type has a unit index outside the string
table (the table has 8 entries). -/
def exParserBadUnit : MoleculeParser :=
  { exParser with periodType := { type := 1, unit := 99 }, period := 10 }

/-- Example parser whose period is `2 ^ 55` seconds: the unit string at
index 8 is "seconds". -/
def exParserHugePeriod : MoleculeParser :=
  { exParser with
    strings := exStrings ++ ["seconds"]
    periodType := { type := 1, unit := 8 }
    period := 36028797018963968 }

/-- The entries `iterate` hands to its callback, in the order of the walk:
those of the metric types that `resolveSampleType` finds. -/
def MoleculeParser.visits (p : MoleculeParser) (newCache : LabelsCache) :
    List (valueType × Labels × Tree) :=
  newCache.flatMap fun tes =>
    match p.resolveSampleType tes.1 with
    | none => []
    | some t => tes.2.map fun he => (t, he.2.Labels, he.2.Tree)

/-- The callback `fn` run on the entries of a list in order, up to and
including the first one on which it reports an error or faults. -/
def runCalls {σ : Type} (fn : valueType → Labels → Tree → σ → σ × Bool × Outcome) :
    List (valueType × Labels × Tree) → σ → σ × Outcome
  | [], s => (s, Outcome.nil)
  | e :: rest, s =>
    match fn e.1 e.2.1 e.2.2 s with
    | (s1, _, Outcome.nil) => runCalls fn rest s1
    | (s1, _, out) => (s1, out)

/-- The callback `fn` instrumented with a record of every entry it is invoked
on. -/
def logged {σ : Type} (fn : valueType → Labels → Tree → σ → σ × Bool × Outcome) :
    valueType → Labels → Tree → σ × List (valueType × Labels × Tree) →
      (σ × List (valueType × Labels × Tree)) × Bool × Outcome :=
  fun t l tr sl =>
    (((fn t l tr sl.1).1, sl.2 ++ [(t, l, tr)]), (fn t l tr sl.1).2.1, (fn t l tr sl.1).2.2)

/-- Example parser in which `cpu` has no configuration. -/
def exParserNoCpu : MoleculeParser :=
  { exParser with
    sampleTypes :=
      [("alloc_objects", { Units := "objects", DisplayName := "", Aggregation := "sum",
                           Cumulative := true, Sampled := false })] }

/-- Keys and label sets of a cache generation, without the trees. -/
def LabelsCache.shape (c : LabelsCache) : List (Int × List (Nat × Labels)) :=
  c.map fun tes => (tes.1, tes.2.map fun he => (he.1, he.2.Labels))

/-- Example diff: the weights of `t` less the weight `prev` holds for the same
stack. -/
def exDiff (prev t : Tree) : Tree :=
  t.map fun sv => (sv.1, sv.2 - ((prev.filter fun pv => pv.1 = sv.1).map Prod.snd).sum)

/-- Example collaborators with a sink whose `Put` always fails. -/
def exEnvFailing : Env :=
  { hash := exEnv.hash
    Diff := exDiff
    putter := fun _ _ => some "disk full" }

/-- Parser state after a first call on `exProfileB` with `cpu` cumulative:
the entry is first seen, so nothing is written and the call succeeds. -/
def exAfterFirstCall : MoleculeParser :=
  ((NewStreamingParser exConfigTwoCalls).parsePprofDecompressed exEnvFailing exProfileB []).1

/-! ## Cache lemmas -/

theorem entries_cons (ty : Int) (es : List (Nat × LabelsCacheEntry)) (rest : LabelsCache) :
    LabelsCache.entries ((ty, es) :: rest)
      = es.map (fun he => (ty, he.1, he.2)) ++ LabelsCache.entries rest := by
  simp [LabelsCache.entries]

theorem entries_nil : LabelsCache.entries [] = [] := rfl

theorem entries_Remove (c : LabelsCache) (stt : Int) (h : Nat) :
    (c.Remove stt h).entries = c.entries.filter (fun e => !(e.1 == stt && e.2.1 == h)) := by
  induction c with
  | nil => rfl
  | cons tes rest ih =>
    obtain ⟨ty, es⟩ := tes
    have ih1 : LabelsCache.entries (LabelsCache.Remove rest stt h)
        = (LabelsCache.entries rest).filter (fun e => !(e.1 == stt && e.2.1 == h)) := ih
    have hstep : LabelsCache.Remove ((ty, es) :: rest) stt h
        = (if ty = stt then (ty, es.filter fun he => he.1 ≠ h) else (ty, es))
            :: LabelsCache.Remove rest stt h := by
      simp [LabelsCache.Remove]
    rw [hstep]
    by_cases hty : ty = stt
    · subst hty
      simp only [if_true, entries_cons, ih1, List.filter_append, List.filter_map]
      congr 1
      congr 1
      apply List.filter_congr
      intro he _
      by_cases hh : he.1 = h <;> simp [hh]
    · simp only [if_neg hty, entries_cons, ih1, List.filter_append]
      congr 1
      symm
      rw [List.filter_eq_self]
      intro e he
      simp only [List.mem_map] at he
      obtain ⟨x, _, rfl⟩ := he
      simp [hty]

/-! ## Rotation -/

theorem resolveSampleType_type (p : MoleculeParser) (stt : Int) (t : valueType)
    (h : p.resolveSampleType stt = some t) : t.type = stt := by
  have := List.find?_some h
  simpa using this

theorem putWrite_cases (env : Env) (p : MoleculeParser) (st : valueType) (l : Labels)
    (name : String) (cfg : SampleTypeConfig) (pi : PutInput) (s : PutState) :
    p.putWrite env st l name cfg pi s = (s, false, Outcome.panic) ∨
    ∃ pi1 : PutInput, pi1.Val = pi.Val ∧
      p.putWrite env st l name cfg pi s
        = ((s.1 ++ [pi1], s.2), cfg.Cumulative, Outcome.ofError (env.putter s.1 pi1)) := by
  unfold MoleculeParser.putWrite
  dsimp only
  split
  · exact Or.inl rfl
  · split
    · exact Or.inl rfl
    · split
      · exact Or.inl rfl
      · refine Or.inr ⟨_, ?_, rfl⟩
        rfl

theorem put_keep (env : Env) (p : MoleculeParser) (st : valueType) (l : Labels) (t : Tree)
    (s : PutState) (h : (p.put env st l t s).2.2 = Outcome.nil) :
    (p.put env st l t s).2.1 = p.cumulative st.type := by
  unfold MoleculeParser.put at h ⊢
  unfold MoleculeParser.cumulative
  cases hs : p.string st.type with
  | none => simp [hs] at h
  | some name =>
    simp only [hs] at h ⊢
    cases hc : p.sampleTypes.lookup name with
    | none => simp [hc] at h
    | some cfg =>
      simp only [hc] at h ⊢
      by_cases hcum : cfg.Cumulative = true
      · simp only [hcum, if_true] at h ⊢
        cases hg : s.2.Get st.type (env.hash l) with
        | none => rfl
        | some prev =>
          simp only [hg] at h ⊢
          rcases putWrite_cases env p st l name cfg
            { StartTime := p.startTime, EndTime := p.endTime, SpyName := p.spyName,
              Val := env.Diff prev t, AggregationType := "", SampleRate := 0, Units := "",
              Key := [] } (s.1, s.2.setTree st.type (env.hash l) (env.Diff prev t))
            with hw | ⟨pi1, _, hw⟩
          · rw [hw] at h
            simp at h
          · rw [hw]
            exact hcum
      · simp only [hcum] at h ⊢
        simp only [Bool.not_eq_true] at hcum
        rcases putWrite_cases env p st l name cfg
            { StartTime := p.startTime, EndTime := p.endTime, SpyName := p.spyName,
              Val := t, AggregationType := "", SampleRate := 0, Units := "",
              Key := [] } s with hw | ⟨pi1, _, hw⟩
        · simp only [Bool.false_eq_true, if_false] at h
          rw [hw] at h
          simp at h
        · simp only [Bool.false_eq_true, if_false]
          rw [hw]
          exact hcum

theorem iterateEntries_entries {σ : Type}
    (fn : valueType → Labels → Tree → σ → σ × Bool × Outcome) (t : valueType) (stt : Int)
    (K : Bool) (hK : ∀ l tr s, (fn t l tr s).2.2 = Outcome.nil → (fn t l tr s).2.1 = K) :
    ∀ (es : List (Nat × LabelsCacheEntry)) (c : LabelsCache) (s : σ) (c1 : LabelsCache) (s1 : σ),
      iterateEntries fn t stt es c s = (c1, s1, Outcome.nil) →
      c1.entries = c.entries.filter
        (fun e => K || !(e.1 == stt && es.any (fun he => he.1 == e.2.1))) := by
  intro es
  induction es with
  | nil =>
    intro c s c1 s1 h
    simp only [iterateEntries, Prod.mk.injEq] at h
    obtain ⟨rfl, _, _⟩ := h
    symm
    rw [List.filter_eq_self]
    intro e _
    simp
  | cons he rest ih =>
    intro c s c1 s1 h
    obtain ⟨hh, e⟩ := he
    unfold iterateEntries at h
    have hk := hK e.Labels e.Tree s
    rcases hfn : fn t e.Labels e.Tree s with ⟨s2, keep, out⟩
    rw [hfn] at h hk
    cases out with
    | nil =>
      have hkeep : keep = K := hk rfl
      simp only at h
      subst hkeep
      have := ih _ _ _ _ h
      rw [this]
      cases keep with
      | true => simp
      | false =>
        simp only [Bool.false_eq_true, if_false, entries_Remove, List.filter_filter]
        apply List.filter_congr
        intro x _
        simp only [Bool.false_or, List.any_cons]
        by_cases h1 : x.1 = stt
        · by_cases h2 : x.2.1 = hh
          · simp [h1, h2]
          · have e2 : (x.2.1 == hh) = false := beq_eq_false_iff_ne.mpr h2
            have e3 : (hh == x.2.1) = false := beq_eq_false_iff_ne.mpr (fun h => h2 h.symm)
            simp [h1, e2, e3]
        · have e1 : (x.1 == stt) = false := beq_eq_false_iff_ne.mpr h1
          simp [e1]
    | err msg => simp at h
    | panic => simp at h

theorem iterateTypes_entries {σ : Type} (p : MoleculeParser)
    (fn : valueType → Labels → Tree → σ → σ × Bool × Outcome) (K : Int → Bool)
    (hK : ∀ stt t, p.resolveSampleType stt = some t →
      ∀ l tr s, (fn t l tr s).2.2 = Outcome.nil → (fn t l tr s).2.1 = K stt) :
    ∀ (todo c : LabelsCache) (s : σ) (c1 : LabelsCache) (s1 : σ),
      MoleculeParser.iterateTypes p fn todo c s = (c1, s1, Outcome.nil) →
      c1.entries = c.entries.filter
        (fun e => !droppedBy (fun ty => (p.resolveSampleType ty).isSome) K todo e) := by
  intro todo
  induction todo with
  | nil =>
    intro c s c1 s1 h
    simp only [MoleculeParser.iterateTypes, Prod.mk.injEq] at h
    obtain ⟨rfl, _, _⟩ := h
    symm
    rw [List.filter_eq_self]
    intro e _
    simp [droppedBy]
  | cons tes rest ih =>
    intro c s c1 s1 h
    obtain ⟨stt, es⟩ := tes
    unfold MoleculeParser.iterateTypes at h
    cases hr : p.resolveSampleType stt with
    | none =>
      simp only [hr] at h
      rw [ih _ _ _ _ h]
      apply List.filter_congr
      intro x _
      simp [droppedBy, hr]
    | some t =>
      simp only [hr] at h
      rcases hit : iterateEntries fn t stt es c s with ⟨c2, s2, out⟩
      rw [hit] at h
      cases out with
      | nil =>
        simp only at h
        rw [ih _ _ _ _ h, iterateEntries_entries fn t stt (K stt) (hK stt t hr) _ _ _ _ _ hit,
          List.filter_filter]
        apply List.filter_congr
        intro x _
        simp only [droppedBy, List.any_cons, hr, Option.isSome_some, Bool.and_true]
        cases hx : (stt == x.1)
        · have : (x.1 == stt) = false := by
            rw [beq_eq_false_iff_ne] at hx ⊢
            exact fun h => hx h.symm
          simp [this]
        · have : (x.1 == stt) = true := by
            rw [beq_iff_eq] at hx ⊢
            exact hx.symm
          cases K stt <;> cases (es.any fun he => he.1 == x.2.1) <;> simp [this]
      | err msg =>
        simp only [Prod.mk.injEq] at h
        exact absurd h.2.2 (by simp)
      | panic =>
        simp only [Prod.mk.injEq] at h
        exact absurd h.2.2 (by simp)

theorem mem_entries (c : LabelsCache) (e : Int × Nat × LabelsCacheEntry) :
    e ∈ c.entries ↔ ∃ tes ∈ c, e.1 = tes.1 ∧ (e.2.1, e.2.2) ∈ tes.2 := by
  simp only [LabelsCache.entries, List.mem_flatMap, List.mem_map]
  constructor
  · rintro ⟨tes, htes, he, hhe, rfl⟩
    exact ⟨tes, htes, rfl, hhe⟩
  · rintro ⟨tes, htes, h1, h2⟩
    refine ⟨tes, htes, (e.2.1, e.2.2), h2, ?_⟩
    obtain ⟨a, b, c⟩ := e
    simp only at h1
    simp [h1]

theorem iterate_entries {σ : Type} (p : MoleculeParser)
    (fn : valueType → Labels → Tree → σ → σ × Bool × Outcome) (K : Int → Bool)
    (hK : ∀ stt t, p.resolveSampleType stt = some t →
      ∀ l tr s, (fn t l tr s).2.2 = Outcome.nil → (fn t l tr s).2.1 = K stt)
    (newCache : LabelsCache) (s : σ)
    (hkeys : ∀ tes ∈ newCache, (p.resolveSampleType tes.1).isSome = true)
    (hok : (p.iterate newCache fn s).2.2 = Outcome.nil) :
    (p.iterate newCache fn s).1.previousCache.entries
      = newCache.entries.filter (fun e => K e.1) := by
  unfold MoleculeParser.iterate at hok ⊢
  rcases hit : MoleculeParser.iterateTypes p fn newCache newCache s with ⟨c1, s1, out⟩
  rw [hit] at hok
  cases out with
  | nil =>
    simp only
    rw [iterateTypes_entries p fn K hK _ _ _ _ _ hit]
    apply List.filter_congr
    intro e he
    rw [mem_entries] at he
    obtain ⟨tes, htes, h1, h2⟩ := he
    cases hk : K e.1
    · simp only [Bool.not_eq_eq_eq_not, Bool.not_false, droppedBy, List.any_eq_true]
      refine ⟨tes, htes, ?_⟩
      simp only [Bool.and_eq_true, beq_iff_eq, Bool.not_eq_true', List.any_eq_true]
      refine ⟨⟨⟨h1.symm, hkeys tes htes⟩, ?_⟩, (e.2.1, e.2.2), h2, rfl⟩
      rw [← h1]
      exact hk
    · simp only [Bool.not_eq_true', droppedBy]
      rw [List.any_eq_false]
      intro x _
      by_cases hx : x.1 = e.1
      · simp [hx, hk]
      · simp [hx]
  | err msg => simp at hok
  | panic => simp at hok

/-! ## The previous generation is only replaced by a successful walk -/

theorem addString_previousCache (p : MoleculeParser) (s : Bytes) :
    (p.addString s).previousCache = p.previousCache := by
  unfold MoleculeParser.addString
  by_cases h : s = profileIDLabel <;> simp [h]

theorem structField_previousCache (p : MoleculeParser) (f : StructField) :
    (p.structField f).previousCache = p.previousCache := by
  cases f with
  | string s => exact addString_previousCache p s
  | sampleType st => rfl
  | periodType pt => rfl

theorem tableField_previousCache (p : MoleculeParser) (f : TableField) :
    (p.tableField f).previousCache = p.previousCache := by
  cases f <;> rfl

theorem foldl_previousCache {α : Type} (step : MoleculeParser → α → MoleculeParser)
    (hstep : ∀ p a, (step p a).previousCache = p.previousCache) :
    ∀ (l : List α) (p : MoleculeParser), (l.foldl step p).previousCache = p.previousCache := by
  intro l
  induction l with
  | nil => intro p; rfl
  | cons a rest ih =>
    intro p
    rw [List.foldl_cons, ih, hstep]

theorem parseStructs_previousCache (p : MoleculeParser) (profile : Profile) :
    (p.parseStructs profile).1.previousCache = p.previousCache := by
  unfold MoleculeParser.parseStructs
  have h := foldl_previousCache MoleculeParser.structField structField_previousCache
    profile.structs p
  cases profile.structsEnd <;> exact h

theorem parseFunctionsAndLocations_previousCache (p : MoleculeParser) (profile : Profile) :
    (p.parseFunctionsAndLocations profile).1.previousCache = p.previousCache := by
  unfold MoleculeParser.parseFunctionsAndLocations
  have h := foldl_previousCache MoleculeParser.tableField tableField_previousCache
    profile.tables p
  cases profile.tablesEnd <;> exact h

theorem checkKnownSampleTypesLoop_previousCache :
    ∀ (l : List valueType) (i : Nat) (p : MoleculeParser),
      (MoleculeParser.checkKnownSampleTypesLoop l i p).1.previousCache = p.previousCache := by
  intro l
  induction l with
  | nil => intro i p; rfl
  | cons s rest ih =>
    intro i p
    unfold MoleculeParser.checkKnownSampleTypesLoop
    cases p.string s.type with
    | none => rfl
    | some ssType =>
      by_cases hf : p.sampleTypesFilter ssType = true
      · simp only [hf, if_true]
        rw [ih]
      · simp only [hf]
        exact ih _ _

theorem checkKnownSampleTypes_previousCache (p : MoleculeParser) :
    p.checkKnownSampleTypes.1.previousCache = p.previousCache := by
  unfold MoleculeParser.checkKnownSampleTypes
  have h := checkKnownSampleTypesLoop_previousCache p.sampleTypesParsed 0
    { p with indexes := [], types := [] }
  dsimp only at h ⊢
  rcases hl : MoleculeParser.checkKnownSampleTypesLoop p.sampleTypesParsed 0
    { p with indexes := [], types := [] } with ⟨p1, out⟩
  rw [hl] at h
  cases out with
  | nil =>
    by_cases hz : p1.indexes.length = 0 <;> simp [hz] <;> exact h
  | err msg => exact h
  | panic => exact h

theorem addStackFrame_previousCache (p : MoleculeParser) (fID : Nat) :
    (p.addStackFrame fID).1.previousCache = p.previousCache := by
  unfold MoleculeParser.addStackFrame
  split
  · rfl
  · split
    · rfl
    · split <;> rfl

theorem addStackFrames_previousCache :
    ∀ (l : List Nat) (p : MoleculeParser),
      (MoleculeParser.addStackFrames l p).1.previousCache = p.previousCache := by
  intro l
  induction l with
  | nil => intro p; rfl
  | cons fID rest ih =>
    intro p
    unfold MoleculeParser.addStackFrames
    have h := addStackFrame_previousCache p fID
    rcases hf : p.addStackFrame fID with ⟨p1, out⟩
    rw [hf] at h
    cases out with
    | nil => simp only; rw [ih]; exact h
    | err msg => exact h
    | panic => exact h

theorem addStackLocation_previousCache (p : MoleculeParser) (lID : Nat) :
    (p.addStackLocation lID).1.previousCache = p.previousCache := by
  unfold MoleculeParser.addStackLocation
  cases p.finder.FindLocation lID with
  | none => rfl
  | some loc =>
    dsimp only
    have h := addStackFrame_previousCache p loc.fn1
    rcases hf : p.addStackFrame loc.fn1 with ⟨p1, out⟩
    rw [hf] at h
    cases out with
    | nil => simp only; rw [addStackFrames_previousCache]; exact h
    | err msg => exact h
    | panic => exact h

theorem addStackLocations_previousCache :
    ∀ (l : List Nat) (p : MoleculeParser),
      (MoleculeParser.addStackLocations l p).1.previousCache = p.previousCache := by
  intro l
  induction l with
  | nil => intro p; rfl
  | cons lID rest ih =>
    intro p
    unfold MoleculeParser.addStackLocations
    have h := addStackLocation_previousCache p lID
    rcases hf : p.addStackLocation lID with ⟨p1, out⟩
    rw [hf] at h
    cases out with
    | nil => simp only; rw [ih]; exact h
    | err msg => exact h
    | panic => exact h

theorem parseSampleVTField_previousCache (p : MoleculeParser) (f : SampleField) :
    (p.parseSampleVTField f).1.previousCache = p.previousCache := by
  cases f with
  | locationIDBytes ids err =>
    unfold MoleculeParser.parseSampleVTField
    dsimp only
    have h := addStackLocations_previousCache ids p
    rcases hf : MoleculeParser.addStackLocations ids p with ⟨p1, out⟩
    rw [hf] at h
    cases out <;> exact h
  | locationIDVarint id => exact addStackLocation_previousCache p id
  | valueBytes vals err => rfl
  | valueVarint n => rfl
  | label l =>
    cases l with
    | error e => rfl
    | ok l =>
      unfold MoleculeParser.parseSampleVTField
      by_cases hk : l.k = 0 <;> simp [hk]
  | other => rfl

theorem parseSampleVTFields_previousCache :
    ∀ (l : List SampleField) (err : Option String) (p : MoleculeParser),
      (MoleculeParser.parseSampleVTFields l err p).1.previousCache = p.previousCache := by
  intro l
  induction l with
  | nil => intro err p; rfl
  | cons f rest ih =>
    intro err p
    unfold MoleculeParser.parseSampleVTFields
    have h := parseSampleVTField_previousCache p f
    rcases hf : p.parseSampleVTField f with ⟨p1, out⟩
    rw [hf] at h
    cases out with
    | nil => simp only; rw [ih]; exact h
    | err msg => exact h
    | panic => exact h

theorem parseSampleVT_previousCache (env : Env) (p : MoleculeParser) (m : SampleMsg)
    (c : LabelsCache) : (p.parseSampleVT env m c).1.previousCache = p.previousCache := by
  unfold MoleculeParser.parseSampleVT
  have h := parseSampleVTFields_previousCache m.fields m.err
    { p with tmpSample := p.tmpSample.resetSample }
  dsimp only at h ⊢
  rcases hf : MoleculeParser.parseSampleVTFields m.fields m.err
    { p with tmpSample := p.tmpSample.resetSample } with ⟨p1, out⟩
  rw [hf] at h
  cases out with
  | nil =>
    simp only
    split <;> exact h
  | err msg => exact h
  | panic => exact h

theorem parseSamples_previousCache (env : Env) :
    ∀ (l : List SampleMsg) (out : Outcome) (p : MoleculeParser) (c : LabelsCache),
      (MoleculeParser.parseSamples env l out p c).1.previousCache = p.previousCache := by
  intro l
  induction l with
  | nil => intro out p c; rfl
  | cons m rest ih =>
    intro out p c
    unfold MoleculeParser.parseSamples
    have h := parseSampleVT_previousCache env p m c
    rcases hf : p.parseSampleVT env m c with ⟨p1, c1, o⟩
    rw [hf] at h
    cases o with
    | nil => simp only; rw [ih]; exact h
    | err msg => exact h
    | panic => exact h

theorem iterate_failure_previousCache {σ : Type} (p : MoleculeParser) (newCache : LabelsCache)
    (fn : valueType → Labels → Tree → σ → σ × Bool × Outcome) (s : σ)
    (h : (p.iterate newCache fn s).2.2 ≠ Outcome.nil) :
    (p.iterate newCache fn s).1 = p := by
  unfold MoleculeParser.iterate at h ⊢
  rcases hit : MoleculeParser.iterateTypes p fn newCache newCache s with ⟨c1, s1, out⟩
  rw [hit] at h
  cases out with
  | nil => simp at h
  | err msg => rfl
  | panic => rfl

/-! ## Claims -/

/-- C1 (rotation). On a new generation whose metric-type keys are declared
sample types (as for every generation built by `createTrees`), when
`iterate(newCache, put)` returns no error: `put` reports `keep = true` exactly
for the sample types configured cumulative, and `p.previousCache` then holds
exactly the entries of the new generation whose sample type is configured
cumulative, with the same metric type, hash, labels and tree, and no entry
of a non-cumulative sample type. -/
theorem rotation_keeps_exactly_cumulative (env : Env) (p : MoleculeParser)
    (newCache : LabelsCache) (s0 : PutState)
    (hkeys : ∀ tes ∈ newCache, (p.resolveSampleType tes.1).isSome = true)
    (hok : (p.iterate newCache (p.put env) s0).2.2 = Outcome.nil) :
    (∀ st l t s, (p.put env st l t s).2.2 = Outcome.nil →
        ((p.put env st l t s).2.1 = true ↔ p.cumulative st.type = true)) ∧
    (p.iterate newCache (p.put env) s0).1.previousCache.entries
      = newCache.entries.filter (fun e => p.cumulative e.1) ∧
    (∀ e ∈ (p.iterate newCache (p.put env) s0).1.previousCache.entries,
        p.cumulative e.1 = true) := by
  have hK : ∀ stt t, p.resolveSampleType stt = some t →
      ∀ l tr s, (p.put env t l tr s).2.2 = Outcome.nil →
        (p.put env t l tr s).2.1 = p.cumulative stt := by
    intro stt t hr l tr s h
    rw [put_keep env p t l tr s h, resolveSampleType_type p stt t hr]
  have h2 := iterate_entries p (p.put env) p.cumulative hK newCache s0 hkeys hok
  refine ⟨?_, h2, ?_⟩
  · intro st l t s h
    rw [put_keep env p st l t s h]
  · intro e he
    rw [h2] at he
    exact (List.mem_filter.mp he).2

/-- Witness of C1 on the example generation: the `alloc_objects` entry
survives, the `cpu` entry does not. -/
theorem rotation_keeps_exactly_cumulative_witness :
    (exParser.iterate exNewCache (exParser.put exEnv)
        ([], exParser.previousCache)).1.previousCache.entries
      = [(3, 7007, { Labels := [{ k := 6, v := 7 }], Tree := [(["main", "foo"], 9)] })] :=
  ((rotation_keeps_exactly_cumulative exEnv exParser exNewCache ([], exParser.previousCache)
    (by decide)
    (by decide)).2.1).trans (by decide)

/-! ## Tree builder -/

theorem findLabelIndexFrom_nonneg_iff (k : Int) :
    ∀ (l : Labels) (i : Nat), 0 ≤ findLabelIndexFrom k l i ↔ ∃ x ∈ l, x.k = k := by
  intro l
  induction l with
  | nil => intro i; simp [findLabelIndexFrom]
  | cons x rest ih =>
    intro i
    unfold findLabelIndexFrom
    by_cases hx : x.k = k
    · simp [hx]
    · simp only [hx, if_false, ih, List.mem_cons, exists_eq_or_imp, false_or]

theorem findLabelIndexFrom_spec (k : Int) :
    ∀ (l : Labels) (i : Nat), 0 ≤ findLabelIndexFrom k l i →
      i ≤ (findLabelIndexFrom k l i).toNat ∧
      (l[(findLabelIndexFrom k l i).toNat - i]?).map label.k = some k ∧
      ∀ n, n < (findLabelIndexFrom k l i).toNat - i → (l[n]?).map label.k ≠ some k := by
  intro l
  induction l with
  | nil => intro i h; simp [findLabelIndexFrom] at h
  | cons x rest ih =>
    intro i h
    unfold findLabelIndexFrom at h ⊢
    by_cases hx : x.k = k
    · simp [hx]
    · simp only [hx, if_false] at h ⊢
      obtain ⟨h1, h2, h3⟩ := ih (i + 1) h
      have e : (findLabelIndexFrom k rest (i + 1)).toNat - i
          = ((findLabelIndexFrom k rest (i + 1)).toNat - (i + 1)) + 1 := by omega
      refine ⟨by omega, ?_, ?_⟩
      · rw [e, List.getElem?_cons_succ]
        exact h2
      · intro n hn
        cases n with
        | zero => simp [hx]
        | succ m =>
          rw [List.getElem?_cons_succ]
          exact h3 m (by omega)

theorem nonzeroOf_cons (p : MoleculeParser) (ty : Int) (vi : Nat) (cols : List (Int × Nat)) :
    p.nonzeroOf ((ty, vi) :: cols)
      = if toUint64 (p.tmpSample.tmpValues.getD vi 0) = 0 then p.nonzeroOf cols
        else (ty, toUint64 (p.tmpSample.tmpValues.getD vi 0)) :: p.nonzeroOf cols := by
  unfold MoleculeParser.nonzeroOf
  rw [List.map_cons, List.filter_cons]
  by_cases hz : toUint64 (p.tmpSample.tmpValues.getD vi 0) = 0
  · rw [if_pos hz, if_neg]
    simpa using hz
  · rw [if_neg hz, if_pos]
    simpa using hz

theorem createTreesLoop_eq (env : Env) (p : MoleculeParser) :
    ∀ (vis : List Nat) (tys : List Int) (i : Nat) (c : LabelsCache),
      p.types.drop i = tys → tys.length = vis.length →
      (∀ vi ∈ vis, vi < p.tmpSample.tmpValues.length) →
      MoleculeParser.createTreesLoop env p vis i c
        = some (c.insertAll env.hash ((p.nonzeroOf (tys.zip vis)).flatMap p.columnInsertions)) := by
  intro vis
  induction vis with
  | nil =>
    intro tys i c _ hlen _
    have : tys = [] := List.length_eq_zero.mp hlen
    subst this
    rfl
  | cons vi rest ih =>
    intro tys i c hdrop hlen hrange
    cases tys with
    | nil => simp at hlen
    | cons ty tys1 =>
      have hty : p.types[i]? = some ty := by
        have := congrArg (fun l => l[0]?) hdrop
        simpa using this
      have hdrop1 : p.types.drop (i + 1) = tys1 := by
        have := congrArg List.tail hdrop
        simpa using this
      have hlen1 : tys1.length = rest.length := by simpa using hlen
      have hvi : vi < p.tmpSample.tmpValues.length := hrange vi (List.mem_cons_self _ _)
      have hrange1 : ∀ v ∈ rest, v < p.tmpSample.tmpValues.length :=
        fun v hv => hrange v (List.mem_cons_of_mem _ hv)
      have hval : p.tmpSample.tmpValues[vi]? = some (p.tmpSample.tmpValues.getD vi 0) := by
        rw [List.getD_eq_getElem?_getD, List.getElem?_eq_getElem hvi]
        rfl
      unfold MoleculeParser.createTreesLoop
      simp only [hval, hty]
      by_cases hz : toUint64 (p.tmpSample.tmpValues.getD vi 0) = 0
      · simp only [hz, if_true]
        rw [ih tys1 (i + 1) c hdrop1 hlen1 hrange1, List.zip_cons_cons, nonzeroOf_cons, if_pos hz]
      · simp only [hz, if_false]
        rw [List.zip_cons_cons, nonzeroOf_cons, if_neg hz, List.flatMap_cons,
          LabelsCache.insertAll, List.foldl_append]
        by_cases hj : 0 ≤ findLabelIndex p.tmpSample.tmpLabels p.profileIDLabelIndex
        · by_cases hs : p.skipExemplars = true
          · simp only [hj, hs, if_true]
            rw [ih tys1 (i + 1) _ hdrop1 hlen1 hrange1]
            simp [MoleculeParser.columnInsertions, hj, hs, LabelsCache.insertAll,
              LabelsCache.insert]
          · simp only [hj, hs, if_true, Bool.false_eq_true, if_false]
            rw [ih tys1 (i + 1) _ hdrop1 hlen1 hrange1]
            simp [MoleculeParser.columnInsertions, hj, hs, LabelsCache.insertAll,
              LabelsCache.insert]
        · simp only [hj, if_false]
          rw [ih tys1 (i + 1) _ hdrop1 hlen1 hrange1]
          simp [MoleculeParser.columnInsertions, hj, LabelsCache.insertAll, LabelsCache.insert]

theorem createTrees_eq (env : Env) (p : MoleculeParser) (c : LabelsCache)
    (hlen : p.types.length = p.indexes.length)
    (hrange : ∀ vi ∈ p.indexes, vi < p.tmpSample.tmpValues.length) :
    p.createTrees env c
      = some (c.insertAll env.hash (p.retainedNonzero.flatMap p.columnInsertions)) :=
  createTreesLoop_eq env p p.indexes p.types 0 c rfl hlen hrange

theorem createTreesLoop_zero (env : Env) (p : MoleculeParser) :
    ∀ (vis : List Nat) (i : Nat) (c : LabelsCache),
      (∀ vi ∈ vis, p.tmpSample.tmpValues[vi]? = some 0) →
      MoleculeParser.createTreesLoop env p vis i c = some c := by
  intro vis
  induction vis with
  | nil => intro i c _; rfl
  | cons vi rest ih =>
    intro i c h
    unfold MoleculeParser.createTreesLoop
    rw [h vi (List.mem_cons_self _ _)]
    have hz : toUint64 0 = 0 := by decide
    simp only [hz, if_true]
    exact ih (i + 1) c (fun v hv => h v (List.mem_cons_of_mem _ hv))

/-- C3 (exemplar split). For a sample that carries a value for every retained
column and whose label list has a label with key `p.profileIDLabelIndex`, at
position `j` (the first such): with `skipExemplars = false`, `createTrees`
performs, for each retained column with nonzero value `v`, the insertion of
`(stack, v)` into the tree keyed by (metric type, labels without position
`j`) and then into the tree keyed by (metric type, all labels); with
`skipExemplars = true` it performs only the first of the two. -/
theorem exemplar_split (env : Env) (p : MoleculeParser) (c : LabelsCache)
    (hlen : p.types.length = p.indexes.length)
    (hrange : ∀ vi ∈ p.indexes, vi < p.tmpSample.tmpValues.length)
    (hlabel : ∃ l ∈ p.tmpSample.tmpLabels, l.k = p.profileIDLabelIndex) :
    (p.tmpSample.tmpLabels[(findLabelIndex p.tmpSample.tmpLabels
        p.profileIDLabelIndex).toNat]?).map label.k = some p.profileIDLabelIndex ∧
    ({ p with skipExemplars := false }).createTrees env c
      = some (c.insertAll env.hash (p.retainedNonzero.flatMap fun tv =>
          [{ ty := tv.1
             labels := CutLabel p.tmpSample.tmpLabels
               (findLabelIndex p.tmpSample.tmpLabels p.profileIDLabelIndex).toNat
             stack := p.tmpSample.tmpStack
             v := tv.2 },
           { ty := tv.1, labels := p.tmpSample.tmpLabels, stack := p.tmpSample.tmpStack,
             v := tv.2 }])) ∧
    ({ p with skipExemplars := true }).createTrees env c
      = some (c.insertAll env.hash (p.retainedNonzero.map fun tv =>
          { ty := tv.1
            labels := CutLabel p.tmpSample.tmpLabels
              (findLabelIndex p.tmpSample.tmpLabels p.profileIDLabelIndex).toNat
            stack := p.tmpSample.tmpStack
            v := tv.2 })) := by
  have hj : 0 ≤ findLabelIndex p.tmpSample.tmpLabels p.profileIDLabelIndex :=
    (findLabelIndexFrom_nonneg_iff _ _ 0).mpr hlabel
  refine ⟨?_, ?_, ?_⟩
  · have := (findLabelIndexFrom_spec _ _ 0 hj).2.1
    simpa [findLabelIndex] using this
  · rw [createTrees_eq env { p with skipExemplars := false } c hlen hrange]
    congr 2
    show p.retainedNonzero.flatMap _ = _
    congr 1
    funext tv
    simp [MoleculeParser.columnInsertions, hj]
  · rw [createTrees_eq env { p with skipExemplars := true } c hlen hrange]
    congr 2
    show p.retainedNonzero.flatMap _ = _
    rw [List.map_eq_flatMap]
    congr 1
    funext tv
    simp [MoleculeParser.columnInsertions, hj]

/-- Witness of C3 on the example sample labelled `foo=bar, profile_id=foo`. -/
theorem exemplar_split_witness :
    ({ exParser with tmpSample := exSampleWithID, skipExemplars := false }).createTrees exEnv []
      = some [(1, [(7007, { Labels := [{ k := 6, v := 7 }], Tree := [(["main", "foo"], 5)] }),
                   (13013, { Labels := [{ k := 6, v := 7 }, { k := 5, v := 6 }],
                             Tree := [(["main", "foo"], 5)] })])] ∧
    ({ exParser with tmpSample := exSampleWithID, skipExemplars := true }).createTrees exEnv []
      = some [(1, [(7007, { Labels := [{ k := 6, v := 7 }],
                            Tree := [(["main", "foo"], 5)] })])] :=
  ⟨((exemplar_split exEnv { exParser with tmpSample := exSampleWithID } [] (by decide)
      (by decide) (by decide)).2.1).trans (by decide),
   ((exemplar_split exEnv { exParser with tmpSample := exSampleWithID } [] (by decide)
      (by decide) (by decide)).2.2).trans (by decide)⟩

/-- C4 (stale profile-id index). `parsePprofDecompressed` resets the string
table but not `p.profileIDLabelIndex`: after a first profile with
`profile_id` at string index 1, a second profile without that string, whose
sample is labelled `foo=bar` with `foo` at index 1, has its sample inserted
under the label set with `foo=bar` removed, and no tree keyed by the sample's
full label set receives it. -/
theorem stale_profile_id_index_cuts_other_label :
    exAfterCallA.profileIDLabelIndex = 1 ∧
    (exAfterCallA.parsePprofDecompressed exEnv exProfileB []).1.strings
      = ["", "foo", "cpu", "nanoseconds", "bar", "main"] ∧
    (exAfterCallA.parsePprofDecompressed exEnv exProfileB []).1.tmpSample.tmpLabels
      = [{ k := 1, v := 4 }] ∧
    (exAfterCallA.parsePprofDecompressed exEnv exProfileB []).2.2 = none ∧
    (exAfterCallA.parsePprofDecompressed exEnv exProfileB []).1.previousCache
      = [(2, [(0, { Labels := [], Tree := [(["main"], 5)] })])] ∧
    ({ exAfterCallA with
        strings := ["", "foo", "cpu", "nanoseconds", "bar", "main"]
        tmpSample := { tmpValues := [5], tmpLabels := [{ k := 1, v := 4 }],
                       tmpStack := ["main"] } }).createTrees exEnv []
      = some [(2, [(0, { Labels := [], Tree := [(["main"], 5)] })])] := by
  decide

/-- C5 (zero-suppression). A sample whose value is 0 on every retained column
leaves the new cache generation unchanged: `createTrees` creates no entry
and inserts into no tree. -/
theorem zero_suppression (env : Env) (p : MoleculeParser) (c : LabelsCache)
    (hzero : ∀ vi ∈ p.indexes, p.tmpSample.tmpValues[vi]? = some 0) :
    p.createTrees env c = some c :=
  createTreesLoop_zero env p p.indexes 0 c hzero

/-- Witness of C5 on the example generation. -/
theorem zero_suppression_witness :
    ({ exParser with tmpSample := exSampleZero }).createTrees exEnv exNewCache
      = some exNewCache :=
  zero_suppression exEnv { exParser with tmpSample := exSampleZero } exNewCache (by decide)

/-! ## Conservation -/

theorem weight_nil (T : Int) : LabelsCache.weight [] T = 0 := rfl

theorem weight_cons (ty : Int) (es : List (Nat × LabelsCacheEntry)) (rest : LabelsCache)
    (T : Int) :
    LabelsCache.weight ((ty, es) :: rest) T
      = (if ty = T then (es.map fun he => he.2.Tree.weight).sum else 0)
        + LabelsCache.weight rest T := by
  unfold LabelsCache.weight
  rw [entries_cons, List.filter_append, List.map_append, List.sum_append]
  congr 1
  by_cases h : ty = T
  · rw [if_pos h, List.filter_eq_self.mpr, List.map_map]
    · rfl
    · intro e he
      simp only [List.mem_map] at he
      obtain ⟨x, _, rfl⟩ := he
      simpa using h
  · rw [if_neg h, List.filter_eq_nil_iff.mpr]
    · rfl
    · intro e he
      simp only [List.mem_map] at he
      obtain ⟨x, _, rfl⟩ := he
      simpa using h

theorem Tree.weight_InsertStack (t : Tree) (stack : List Bytes) (v : Nat) :
    (t.InsertStack stack v).weight = t.weight + v := by
  simp [Tree.InsertStack, Tree.weight]

theorem upsertEntry_weight (h : Nat) (l : Labels) (stack : List Bytes) (v : Nat) :
    ∀ es : List (Nat × LabelsCacheEntry),
      ((upsertEntry h l (fun t => t.InsertStack stack v) es).map fun he => he.2.Tree.weight).sum
        = (es.map fun he => he.2.Tree.weight).sum + v := by
  intro es
  induction es with
  | nil => simp [upsertEntry, Tree.InsertStack, Tree.weight, Tree.New]
  | cons he rest ih =>
    obtain ⟨h1, e⟩ := he
    unfold upsertEntry
    by_cases hh : h1 = h
    · simp only [hh, if_true, List.map_cons, List.sum_cons, Tree.weight_InsertStack]
      omega
    · simp only [hh, if_false, List.map_cons, List.sum_cons, ih]
      omega

theorem weight_insert (hash : Labels → Nat) (ins : Insertion) (T : Int) :
    ∀ c : LabelsCache,
      (c.insert hash ins).weight T = c.weight T + (if ins.ty = T then ins.v else 0) := by
  intro c
  induction c with
  | nil =>
    unfold LabelsCache.insert LabelsCache.GetOrCreateTree
    rw [weight_cons, weight_nil]
    by_cases h : ins.ty = T <;>
      simp [h, Tree.InsertStack, Tree.weight, Tree.New]
  | cons tes rest ih =>
    obtain ⟨ty, es⟩ := tes
    unfold LabelsCache.insert LabelsCache.GetOrCreateTree
    by_cases hty : ty = ins.ty
    · simp only [hty, if_true]
      rw [weight_cons, weight_cons, upsertEntry_weight]
      by_cases h : ins.ty = T
      · simp only [h, if_true]; omega
      · simp only [h, if_false]; omega
    · simp only [hty, if_false]
      rw [weight_cons, weight_cons]
      have := ih
      unfold LabelsCache.insert at this
      rw [this]
      omega

theorem weight_insertAll (hash : Labels → Nat) (T : Int) :
    ∀ (l : List Insertion) (c : LabelsCache),
      (c.insertAll hash l).weight T
        = c.weight T + ((l.filter fun ins => ins.ty = T).map Insertion.v).sum := by
  intro l
  induction l with
  | nil => intro c; simp [LabelsCache.insertAll]
  | cons ins rest ih =>
    intro c
    have hstep : LabelsCache.insertAll hash c (ins :: rest)
        = LabelsCache.insertAll hash (c.insert hash ins) rest := rfl
    rw [hstep, ih, weight_insert, List.filter_cons]
    by_cases h : ins.ty = T
    · simp only [h, if_true, decide_True, List.map_cons, List.sum_cons]
      omega
    · simp only [h, if_false, decide_False]
      simp

theorem columnInsertions_weight (p : MoleculeParser) (tv : Int × Nat) (T : Int) :
    (((p.columnInsertions tv).filter fun ins => ins.ty = T).map Insertion.v).sum
      = if tv.1 = T then p.multiplicity p.tmpSample * tv.2 else 0 := by
  unfold MoleculeParser.columnInsertions MoleculeParser.multiplicity
  by_cases hj : 0 ≤ findLabelIndex p.tmpSample.tmpLabels p.profileIDLabelIndex
  · by_cases hs : p.skipExemplars = true
    · by_cases hT : tv.1 = T <;> simp [hj, hs, hT]
    · have hs1 : p.skipExemplars = false := by simpa using hs
      by_cases hT : tv.1 = T <;> simp [hj, hs1, hT]
      omega
  · by_cases hT : tv.1 = T <;> simp [hj, hT]

theorem retained_weight (p : MoleculeParser) (T : Int) :
    ∀ cols : List (Int × Nat),
      ((((p.nonzeroOf cols).flatMap p.columnInsertions).filter fun ins => ins.ty = T).map
          Insertion.v).sum
        = p.multiplicity p.tmpSample *
            ((cols.filter fun tv => tv.1 = T).map fun tv =>
              toUint64 (p.tmpSample.tmpValues.getD tv.2 0)).sum := by
  intro cols
  induction cols with
  | nil => simp [MoleculeParser.nonzeroOf]
  | cons tv rest ih =>
    obtain ⟨ty, vi⟩ := tv
    rw [nonzeroOf_cons, List.filter_cons]
    by_cases hz : toUint64 (p.tmpSample.tmpValues.getD vi 0) = 0
    · rw [if_pos hz, ih]
      by_cases hT : ty = T
      · simp only [hT, decide_True, if_true, List.map_cons, List.sum_cons, hz, Nat.zero_add]
      · simp only [hT, decide_False, if_false]
        simp
    · rw [if_neg hz, List.flatMap_cons, List.filter_append, List.map_append, List.sum_append,
        ih, columnInsertions_weight]
      by_cases hT : ty = T
      · simp only [hT, decide_True, if_true, List.map_cons, List.sum_cons, Nat.mul_add]
      · simp only [hT, decide_False, if_false]
        simp

theorem createTrees_weight (env : Env) (p : MoleculeParser) (c : LabelsCache) (T : Int)
    (hlen : p.types.length = p.indexes.length)
    (hrange : ∀ vi ∈ p.indexes, vi < p.tmpSample.tmpValues.length) :
    ∃ c1, p.createTrees env c = some c1 ∧
      c1.weight T = c.weight T + p.multiplicity p.tmpSample * p.sampleValueOf T p.tmpSample := by
  refine ⟨_, createTrees_eq env p c hlen hrange, ?_⟩
  rw [weight_insertAll]
  unfold MoleculeParser.retainedNonzero MoleculeParser.sampleValueOf
  rw [retained_weight]

theorem createTreesAll_weight (env : Env) (p : MoleculeParser) (T : Int)
    (hlen : p.types.length = p.indexes.length) :
    ∀ (samples : List sample) (c : LabelsCache),
      (∀ s ∈ samples, ∀ vi ∈ p.indexes, vi < s.tmpValues.length) →
      ∃ c1, p.createTreesAll env samples c = some c1 ∧
        c1.weight T = c.weight T
          + (samples.map fun s => p.multiplicity s * p.sampleValueOf T s).sum := by
  intro samples
  induction samples with
  | nil => intro c _; exact ⟨c, rfl, by simp⟩
  | cons s rest ih =>
    intro c hvalid
    obtain ⟨c1, h1, hw1⟩ := createTrees_weight env { p with tmpSample := s } c T hlen
      (hvalid s (List.mem_cons_self _ _))
    obtain ⟨c2, h2, hw2⟩ := ih c1 (fun s1 hs1 => hvalid s1 (List.mem_cons_of_mem _ hs1))
    refine ⟨c2, ?_, ?_⟩
    · unfold MoleculeParser.createTreesAll
      rw [h1]
      exact h2
    · rw [hw2, hw1, List.map_cons, List.sum_cons]
      have e1 : MoleculeParser.multiplicity { p with tmpSample := s } s = p.multiplicity s := rfl
      have e2 : MoleculeParser.sampleValueOf { p with tmpSample := s } T s
          = p.sampleValueOf T s := rfl
      simp only [e1, e2] at *
      omega

theorem filter_fst_of_nodup :
    ∀ (l : List (Int × Nat)), (l.map Prod.fst).Nodup → ∀ x ∈ l,
      l.filter (fun tv => tv.1 = x.1) = [x] := by
  intro l
  induction l with
  | nil => intro _ x hx; simp at hx
  | cons y rest ih =>
    intro hnd x hx
    rw [List.map_cons, List.nodup_cons] at hnd
    obtain ⟨hy, hrest⟩ := hnd
    rw [List.filter_cons]
    rcases List.mem_cons.mp hx with rfl | hxr
    · simp only [decide_True, if_true, List.cons.injEq, true_and]
      rw [List.filter_eq_nil_iff]
      intro z hz
      simp only [decide_eq_true_eq]
      intro hzx
      exact hy (hzx ▸ List.mem_map_of_mem Prod.fst hz)
    · have hne : ¬ y.1 = x.1 := by
        intro h
        exact hy (h ▸ List.mem_map_of_mem Prod.fst hxr)
      simp only [hne, decide_False, Bool.false_eq_true, if_false]
      exact ih hrest x hxr

theorem toUint64_of_nonneg (x : Int) (h0 : 0 ≤ x) (h1 : x < 2 ^ 63) :
    ((toUint64 x : Nat) : Int) = x := by
  unfold toUint64
  rw [Int.emod_eq_of_lt h0 (by omega), Int.toNat_of_nonneg h0]

/-- With distinct retained metric types, no exemplar duplication and
non-negative values, the weight inserted for a retained column is the sum of
the column's raw values. -/
theorem conservation_raw_sum (env : Env) (p : MoleculeParser) (samples : List sample)
    (c : LabelsCache) (ty : Int) (vi : Nat)
    (hlen : p.types.length = p.indexes.length)
    (hvalid : ∀ s ∈ samples, ∀ vi ∈ p.indexes, vi < s.tmpValues.length)
    (hcol : (ty, vi) ∈ p.types.zip p.indexes)
    (hnodup : p.types.Nodup)
    (hone : ∀ s ∈ samples, p.multiplicity s = 1)
    (hnonneg : ∀ s ∈ samples, 0 ≤ s.tmpValues.getD vi 0 ∧ s.tmpValues.getD vi 0 < 2 ^ 63) :
    ∃ c1, p.createTreesAll env samples c = some c1 ∧
      ((c1.weight ty : Nat) : Int) = (c.weight ty : Nat) + rawColumnSum vi samples := by
  obtain ⟨c1, h1, hw⟩ := createTreesAll_weight env p ty hlen samples c hvalid
  refine ⟨c1, h1, ?_⟩
  rw [hw, Nat.cast_add]
  congr 1
  have hfilter : (p.types.zip p.indexes).filter (fun tv => tv.1 = ty) = [(ty, vi)] := by
    have hmap : (p.types.zip p.indexes).map Prod.fst = p.types :=
      List.map_fst_zip _ _ (le_of_eq hlen)
    have hnd : ((p.types.zip p.indexes).map Prod.fst).Nodup := by
      rw [hmap]
      exact hnodup
    exact filter_fst_of_nodup _ hnd (ty, vi) hcol
  unfold rawColumnSum
  clear hw h1 hvalid
  induction samples with
  | nil => simp
  | cons s rest ih =>
    have hs := hnonneg s (List.mem_cons_self _ _)
    have h1s := hone s (List.mem_cons_self _ _)
    have ihr := ih (fun s1 hs1 => hone s1 (List.mem_cons_of_mem _ hs1))
      (fun s1 hs1 => hnonneg s1 (List.mem_cons_of_mem _ hs1))
    have hv : p.sampleValueOf ty s = toUint64 (s.tmpValues.getD vi 0) := by
      unfold MoleculeParser.sampleValueOf
      rw [hfilter]
      simp
    rw [List.map_cons, List.sum_cons, List.map_cons, List.sum_cons, Nat.cast_add, ihr, h1s, hv,
      Nat.one_mul, toUint64_of_nonneg _ hs.1 hs.2]

/-- C6 (conservation, as the code has it). For samples that carry a value
for every retained column and every metric type `T`, `createTrees` succeeds on
all of them and the weight it adds to the trees of `T` is the sum, over the
samples and over the retained columns of type `T`, of the column's value as
`uint64`, counted twice for a sample that carries a label with key
`p.profileIDLabelIndex` while `skipExemplars` is false. -/
theorem conservation_with_multiplicity (env : Env) (p : MoleculeParser)
    (samples : List sample) (c : LabelsCache) (T : Int)
    (hlen : p.types.length = p.indexes.length)
    (hvalid : ∀ s ∈ samples, ∀ vi ∈ p.indexes, vi < s.tmpValues.length) :
    ∃ c1, p.createTreesAll env samples c = some c1 ∧
      c1.weight T = c.weight T
        + (samples.map fun s => p.multiplicity s * p.sampleValueOf T s).sum :=
  createTreesAll_weight env p T hlen samples c hvalid

/-- Witness of C6 on two example samples. -/
theorem conservation_with_multiplicity_witness :
    ∃ c1, exParser.createTreesAll exEnv [exSampleWithID, exSampleZero] [] = some c1 ∧
      c1.weight 1 = LabelsCache.weight [] 1
        + ([exSampleWithID, exSampleZero].map fun s =>
            exParser.multiplicity s * exParser.sampleValueOf 1 s).sum :=
  conservation_with_multiplicity exEnv exParser [exSampleWithID, exSampleZero] [] 1
    (by decide) (by decide)

/-- Counterexample to C6 as stated: one sample with value 5 on `cpu` and a
`profile_id` label, exemplars not skipped, puts weight 10 into the trees of
`cpu`, while the column's raw values sum to 5. -/
theorem conservation_counterexample :
    exParser.skipExemplars = false ∧
    Option.map (fun c => LabelsCache.weight c 1)
      (exParser.createTreesAll exEnv [exSampleWithID] []) = some 10 ∧
    rawColumnSum 0 [exSampleWithID] = 5 := by
  decide

/-! ## Output mapper -/

theorem iterate_keeps {σ : Type} (p : MoleculeParser)
    (fn : valueType → Labels → Tree → σ → σ × Bool × Outcome) (K : Int → Bool)
    (hK : ∀ stt t, p.resolveSampleType stt = some t →
      ∀ l tr s, (fn t l tr s).2.2 = Outcome.nil → (fn t l tr s).2.1 = K stt)
    (newCache : LabelsCache) (s : σ)
    (hok : (p.iterate newCache fn s).2.2 = Outcome.nil)
    (e : Int × Nat × LabelsCacheEntry) (he : e ∈ newCache.entries) (hKe : K e.1 = true) :
    e ∈ (p.iterate newCache fn s).1.previousCache.entries := by
  unfold MoleculeParser.iterate at hok ⊢
  rcases hit : MoleculeParser.iterateTypes p fn newCache newCache s with ⟨c1, s1, out⟩
  rw [hit] at hok
  cases out with
  | nil =>
    simp only
    rw [iterateTypes_entries p fn K hK _ _ _ _ _ hit, List.mem_filter]
    refine ⟨he, ?_⟩
    simp only [Bool.not_eq_true', droppedBy]
    rw [List.any_eq_false]
    intro x _
    by_cases hx : x.1 = e.1
    · simp [hx, hKe]
    · simp [hx]
  | err msg => simp at hok
  | panic => simp at hok

theorem putWrite_ok (env : Env) (p : MoleculeParser) (st : valueType) (l : Labels)
    (name : String) (cfg : SampleTypeConfig) (pi : PutInput) (s : PutState)
    (hrate : cfg.Sampled = true → p.sampleRate ≠ none)
    (hunits : cfg.Units = "" → p.string st.unit ≠ none)
    (hlabels : p.ResolveLabels l ≠ none) :
    ∃ pi1 : PutInput, pi1.Val = pi.Val ∧
      p.putWrite env st l name cfg pi s
        = ((s.1 ++ [pi1], s.2), cfg.Cumulative, Outcome.ofError (env.putter s.1 pi1)) := by
  rcases putWrite_cases env p st l name cfg pi s with h | h
  · exfalso
    unfold MoleculeParser.putWrite at h
    dsimp only at h
    split at h
    · rename_i hr
      by_cases hs : cfg.Sampled = true
      · rw [if_pos hs] at hr
        exact hrate hs hr
      · rw [if_neg hs] at hr
        exact absurd hr (by simp)
    · split at h
      · rename_i hu
        by_cases hz : cfg.Units = ""
        · simp only [hz, ne_eq, not_true_eq_false, if_false] at hu
          exact hunits hz hu
        · simp only [ne_eq, hz, not_false_eq_true, if_true] at hu
          exact absurd hu (by simp)
      · split at h
        · rename_i hm
          exact hlabels hm
        · simp only [Prod.mk.injEq] at h
          have := congrArg (fun x : PutState => x.1.length) h.1
          simp at this
  · exact h

/-- C7 (cumulative first-seen). For an entry whose sample type is configured
cumulative and for which the previous generation `prev` has no tree under
(sample type index, label-set hash), `put` returns `keep = true` and no error
and leaves the storage sink and the previous generation as they were; and
whenever `iterate` walks a new generation holding that entry without error,
the entry is in `p.previousCache` afterwards. -/
theorem cumulative_first_seen (env : Env) (p : MoleculeParser) (st : valueType) (l : Labels)
    (t : Tree) (sink : Sink) (prev : LabelsCache)
    (hcum : p.cumulative st.type = true)
    (hnew : prev.Get st.type (env.hash l) = none) :
    p.put env st l t (sink, prev) = ((sink, prev), true, Outcome.nil) ∧
    ∀ (newCache : LabelsCache) (h : Nat) (s0 : PutState),
      (st.type, h, { Labels := l, Tree := t }) ∈ newCache.entries →
      (p.iterate newCache (p.put env) s0).2.2 = Outcome.nil →
      (st.type, h, { Labels := l, Tree := t })
        ∈ (p.iterate newCache (p.put env) s0).1.previousCache.entries := by
  constructor
  · unfold MoleculeParser.cumulative at hcum
    unfold MoleculeParser.put
    cases hs : p.string st.type with
    | none => simp [hs] at hcum
    | some name =>
      simp only [hs] at hcum ⊢
      cases hc : p.sampleTypes.lookup name with
      | none => simp [hc] at hcum
      | some cfg =>
        simp only [hc] at hcum ⊢
        simp only [hcum, if_true, hnew]
  · intro newCache h s0 he hok
    have hK : ∀ stt t, p.resolveSampleType stt = some t →
        ∀ l tr s, (p.put env t l tr s).2.2 = Outcome.nil →
          (p.put env t l tr s).2.1 = p.cumulative stt := by
      intro stt t hr l tr s h
      rw [put_keep env p t l tr s h, resolveSampleType_type p stt t hr]
    exact iterate_keeps p (p.put env) p.cumulative hK newCache s0 hok _ he hcum

/-- Witness of C7: the `alloc_objects` entry of the example generation, with
an empty previous generation. -/
theorem cumulative_first_seen_witness :
    exParser.put exEnv { type := 3, unit := 4 } [{ k := 6, v := 7 }] [(["main", "foo"], 9)]
        ([], [])
      = (([], []), true, Outcome.nil) ∧
    (3, 7007, { Labels := [{ k := 6, v := 7 }], Tree := [(["main", "foo"], 9)] })
      ∈ (exParser.iterate exNewCache (exParser.put exEnv) ([], [])).1.previousCache.entries :=
  ⟨(cumulative_first_seen exEnv exParser { type := 3, unit := 4 } [{ k := 6, v := 7 }]
      [(["main", "foo"], 9)] [] [] (by decide) (by decide)).1,
   (cumulative_first_seen exEnv exParser { type := 3, unit := 4 } [{ k := 6, v := 7 }]
      [(["main", "foo"], 9)] [] [] (by decide) (by decide)).2 exNewCache 7007 ([], [])
      (by decide) (by decide)⟩

/-- C8 (cumulative second-call diff). For an entry whose sample type has the
configuration `cfg`, when `put` meets no internal fault (the sample rate, the
unit string and the labels resolve): if `cfg` is cumulative and the previous
generation holds `prevTree` under the same (sample type index, label-set
hash), `put` invokes the sink exactly once, with `Val = prevTree.Diff(t)`,
that diff being also what the previous generation's tree now holds; if `cfg`
is not cumulative it invokes the sink exactly once with `Val = t` and leaves
the previous generation as it was. -/
theorem cumulative_second_call_diff (env : Env) (p : MoleculeParser) (st : valueType)
    (l : Labels) (t : Tree) (sink : Sink) (prev : LabelsCache) (name : String)
    (cfg : SampleTypeConfig)
    (hname : p.string st.type = some name)
    (hcfg : p.sampleTypes.lookup name = some cfg)
    (hrate : cfg.Sampled = true → p.sampleRate ≠ none)
    (hunits : cfg.Units = "" → p.string st.unit ≠ none)
    (hlabels : p.ResolveLabels l ≠ none) :
    (cfg.Cumulative = true → ∀ prevTree, prev.Get st.type (env.hash l) = some prevTree →
      ∃ pi : PutInput, pi.Val = env.Diff prevTree t ∧
        p.put env st l t (sink, prev)
          = ((sink ++ [pi], prev.setTree st.type (env.hash l) (env.Diff prevTree t)), true,
              Outcome.ofError (env.putter sink pi))) ∧
    (cfg.Cumulative = false →
      ∃ pi : PutInput, pi.Val = t ∧
        p.put env st l t (sink, prev)
          = ((sink ++ [pi], prev), false, Outcome.ofError (env.putter sink pi))) := by
  constructor
  · intro hc prevTree hprev
    unfold MoleculeParser.put
    simp only [hname, hcfg, hc, if_true, hprev]
    obtain ⟨pi1, hv, hw⟩ := putWrite_ok env p st l name cfg
      { StartTime := p.startTime, EndTime := p.endTime, SpyName := p.spyName,
        Val := env.Diff prevTree t, AggregationType := "", SampleRate := 0, Units := "",
        Key := [] } (sink, prev.setTree st.type (env.hash l) (env.Diff prevTree t))
      hrate hunits hlabels
    rw [hc] at hw
    exact ⟨pi1, hv, hw⟩
  · intro hc
    unfold MoleculeParser.put
    simp only [hname, hcfg, hc, Bool.false_eq_true, if_false]
    obtain ⟨pi1, hv, hw⟩ := putWrite_ok env p st l name cfg
      { StartTime := p.startTime, EndTime := p.endTime, SpyName := p.spyName,
        Val := t, AggregationType := "", SampleRate := 0, Units := "",
        Key := [] } (sink, prev) hrate hunits hlabels
    rw [hc] at hw
    exact ⟨pi1, hv, hw⟩

/-- Witness of C8: the second call for `alloc_objects` writes the diff of the
previous tree and the current one. -/
theorem cumulative_second_call_diff_witness :
    ∃ pi : PutInput, pi.Val = exEnv.Diff [(["main", "foo"], 4)] [(["main", "foo"], 9)] ∧
      exParser.put exEnv { type := 3, unit := 4 } [{ k := 6, v := 7 }] [(["main", "foo"], 9)]
          ([], exPrevCache)
        = (([] ++ [pi],
            exPrevCache.setTree 3 (exEnv.hash [{ k := 6, v := 7 }])
              (exEnv.Diff [(["main", "foo"], 4)] [(["main", "foo"], 9)])), true,
            Outcome.ofError (exEnv.putter [] pi)) :=
  (cumulative_second_call_diff exEnv exParser
    { type := 3, unit := 4 } [{ k := 6, v := 7 }] [(["main", "foo"], 9)] [] exPrevCache
    "alloc_objects"
    { Units := "objects", DisplayName := "", Aggregation := "sum", Cumulative := true,
      Sampled := false }
    (by decide) (by decide) (by decide) (by decide) (by decide)).1 rfl
    [(["main", "foo"], 4)] (by decide)

/-! ## Labels -/

theorem addStackFrame_tmpLabels (p : MoleculeParser) (fID : Nat) :
    (p.addStackFrame fID).1.tmpSample.tmpLabels = p.tmpSample.tmpLabels := by
  unfold MoleculeParser.addStackFrame
  split
  · rfl
  · split
    · rfl
    · split <;> rfl

theorem addStackFrames_tmpLabels :
    ∀ (l : List Nat) (p : MoleculeParser),
      (MoleculeParser.addStackFrames l p).1.tmpSample.tmpLabels = p.tmpSample.tmpLabels := by
  intro l
  induction l with
  | nil => intro p; rfl
  | cons fID rest ih =>
    intro p
    unfold MoleculeParser.addStackFrames
    have h := addStackFrame_tmpLabels p fID
    rcases hf : p.addStackFrame fID with ⟨p1, out⟩
    rw [hf] at h
    cases out with
    | nil => simp only; rw [ih]; exact h
    | err msg => exact h
    | panic => exact h

theorem addStackLocation_tmpLabels (p : MoleculeParser) (lID : Nat) :
    (p.addStackLocation lID).1.tmpSample.tmpLabels = p.tmpSample.tmpLabels := by
  unfold MoleculeParser.addStackLocation
  cases p.finder.FindLocation lID with
  | none => rfl
  | some loc =>
    dsimp only
    have h := addStackFrame_tmpLabels p loc.fn1
    rcases hf : p.addStackFrame loc.fn1 with ⟨p1, out⟩
    rw [hf] at h
    cases out with
    | nil => simp only; rw [addStackFrames_tmpLabels]; exact h
    | err msg => exact h
    | panic => exact h

theorem addStackLocations_tmpLabels :
    ∀ (l : List Nat) (p : MoleculeParser),
      (MoleculeParser.addStackLocations l p).1.tmpSample.tmpLabels = p.tmpSample.tmpLabels := by
  intro l
  induction l with
  | nil => intro p; rfl
  | cons lID rest ih =>
    intro p
    unfold MoleculeParser.addStackLocations
    have h := addStackLocation_tmpLabels p lID
    rcases hf : p.addStackLocation lID with ⟨p1, out⟩
    rw [hf] at h
    cases out with
    | nil => simp only; rw [ih]; exact h
    | err msg => exact h
    | panic => exact h

theorem parseSampleField_tmpLabels (p : MoleculeParser) (f : SampleField) :
    (p.parseSampleField f).1.tmpSample.tmpLabels
      = p.tmpSample.tmpLabels ++ (decodedLabels [f]).filter (fun l => l.v ≠ 0) := by
  cases f with
  | locationIDBytes ids err =>
    unfold MoleculeParser.parseSampleField
    dsimp only
    have h := addStackLocations_tmpLabels ids p
    rcases hf : MoleculeParser.addStackLocations ids p with ⟨p1, out⟩
    rw [hf] at h
    cases out <;> simpa [decodedLabels] using h
  | locationIDVarint id =>
    simpa [decodedLabels, MoleculeParser.parseSampleField] using addStackLocation_tmpLabels p id
  | valueBytes vals err => simp [decodedLabels, MoleculeParser.parseSampleField]
  | valueVarint n => simp [decodedLabels, MoleculeParser.parseSampleField]
  | label l =>
    cases l with
    | error e => simp [decodedLabels, MoleculeParser.parseSampleField]
    | ok l =>
      unfold MoleculeParser.parseSampleField
      by_cases hv : l.v = 0 <;> simp [hv, decodedLabels]
  | other => simp [decodedLabels, MoleculeParser.parseSampleField]

theorem decodedLabels_cons (f : SampleField) (rest : List SampleField) :
    decodedLabels (f :: rest) = decodedLabels [f] ++ decodedLabels rest := by
  cases f with
  | label l => cases l <;> simp [decodedLabels]
  | _ => simp [decodedLabels]

theorem parseSampleFields_tmpLabels :
    ∀ (fields : List SampleField) (err : Option String) (p : MoleculeParser),
      ∃ rest : Labels,
        p.tmpSample.tmpLabels ++ (decodedLabels fields).filter (fun l => l.v ≠ 0)
          = (MoleculeParser.parseSampleFields fields err p).1.tmpSample.tmpLabels ++ rest ∧
        ((MoleculeParser.parseSampleFields fields err p).2 = Outcome.nil → rest = []) := by
  intro fields
  induction fields with
  | nil =>
    intro err p
    exact ⟨[], by simp [decodedLabels, MoleculeParser.parseSampleFields], fun _ => rfl⟩
  | cons f fs ih =>
    intro err p
    have hstep := parseSampleField_tmpLabels p f
    unfold MoleculeParser.parseSampleFields
    rcases hf : p.parseSampleField f with ⟨p1, out⟩
    rw [hf] at hstep
    simp only at hstep
    rw [decodedLabels_cons, List.filter_append, ← List.append_assoc, ← hstep]
    cases out with
    | nil =>
      simp only
      exact ih err p1
    | err msg =>
      exact ⟨_, rfl, fun h => by simp at h⟩
    | panic =>
      exact ⟨_, rfl, fun h => by simp at h⟩

/-- C9 (label filtering in the accumulator, as the code has it). After
`parseSample` the accumulated label list `tmpLabels` consists of decoded
labels whose value index is not 0, in wire order: it is an initial segment
of that list, and the whole of it when the sample is decoded without error.
Labels with value index 0 are skipped and all others, a key index of 0
included, are appended as-is. -/
theorem parseSample_keeps_labels_with_nonzero_value (env : Env) (p : MoleculeParser)
    (buffer : SampleMsg) (newCache : LabelsCache) :
    ∃ rest : Labels,
      (decodedLabels buffer.fields).filter (fun l => l.v ≠ 0)
        = (p.parseSample env buffer newCache).1.tmpSample.tmpLabels ++ rest ∧
      ((p.parseSample env buffer newCache).2.2 = Outcome.nil → rest = []) := by
  obtain ⟨rest, h1, h2⟩ := parseSampleFields_tmpLabels buffer.fields buffer.err
    { p with tmpSample := p.tmpSample.resetSample }
  refine ⟨rest, ?_, ?_⟩
  · have h0 : (sample.resetSample p.tmpSample).tmpLabels = [] := rfl
    simp only [h0, List.nil_append] at h1
    rw [h1]
    unfold MoleculeParser.parseSample
    dsimp only
    rcases MoleculeParser.parseSampleFields buffer.fields buffer.err
      { p with tmpSample := p.tmpSample.resetSample } with ⟨p1, out⟩
    cases out with
    | panic => rfl
    | nil => simp only; split <;> rfl
    | err msg => simp only; split <;> rfl
  · intro hok
    apply h2
    unfold MoleculeParser.parseSample at hok
    dsimp only at hok
    generalize MoleculeParser.parseSampleFields _ _ _ = r at hok ⊢
    rcases r with ⟨p1, out⟩
    cases out with
    | panic => simp at hok
    | nil => rfl
    | err msg =>
      simp only at hok
      split at hok <;> simp at hok

/-- Witness of C9 on the example sample message, which decodes without
error: the accumulator holds exactly the label with nonzero value index. -/
theorem parseSample_keeps_labels_with_nonzero_value_witness :
    ∃ rest : Labels,
      (decodedLabels exSampleMsg.fields).filter (fun l => l.v ≠ 0)
        = (exParser.parseSample exEnv exSampleMsg []).1.tmpSample.tmpLabels ++ rest ∧
      ((exParser.parseSample exEnv exSampleMsg []).2.2 = Outcome.nil → rest = []) :=
  parseSample_keeps_labels_with_nonzero_value exEnv exParser exSampleMsg []

/-- Counterexample to C9 as stated: of the decoded labels `(k=0, v=6)` and
`(k=6, v=0)` the accumulator keeps the one with key 0 and drops the one with
nonzero key, and the label with key 0 is part of the cache key. -/
theorem parseSample_label_key_counterexample :
    (exParser.parseSample exEnv exSampleMsg []).2.2 = Outcome.nil ∧
    (exParser.parseSample exEnv exSampleMsg []).1.tmpSample.tmpLabels = [{ k := 0, v := 6 }] ∧
    (decodedLabels exSampleMsg.fields).filter (fun l => l.k ≠ 0) = [{ k := 6, v := 0 }] ∧
    (exParser.parseSample exEnv exSampleMsg []).2.1
      = [(1, [(1006, { Labels := [{ k := 0, v := 6 }], Tree := [([], 5)] })])] := by
  decide

theorem StringMap.get_set (m : StringMap) (k v s : String) :
    (m.set k v).get s = if k = s then some v else m.get s := by
  induction m with
  | nil =>
    unfold StringMap.set StringMap.get
    by_cases h : k = s
    · simp [h]
    · have : (s == k) = false := beq_eq_false_iff_ne.mpr (fun e => h e.symm)
      simp [List.lookup, this, h]
  | cons kv rest ih =>
    obtain ⟨k1, v1⟩ := kv
    unfold StringMap.set
    unfold StringMap.get at ih ⊢
    by_cases hk : k1 = k
    · subst hk
      simp only [if_true, List.lookup_cons]
      by_cases h : k1 = s
      · subst h
        simp
      · have : (s == k1) = false := beq_eq_false_iff_ne.mpr (fun e => h e.symm)
        simp [this, h]
    · simp only [hk, if_false, List.lookup_cons]
      by_cases h1 : s = k1
      · subst h1
        have : ¬ k = s := fun e => hk e.symm
        simp [this]
      · have : (s == k1) = false := beq_eq_false_iff_ne.mpr h1
        simp only [this]
        exact ih

theorem string_isSome (p : MoleculeParser) (i : Int) (h0 : 0 ≤ i)
    (h1 : i < p.strings.length) : ∃ s, p.string i = some s := by
  unfold MoleculeParser.string
  rw [if_pos h0]
  have : i.toNat < p.strings.length := by omega
  exact ⟨p.strings[i.toNat], List.getElem?_eq_getElem this⟩

theorem ResolveLabelsLoop_spec (p : MoleculeParser) :
    ∀ (l : Labels) (m : StringMap),
      (∀ x ∈ l, 0 ≤ x.k ∧ x.k < p.strings.length ∧ 0 ≤ x.v ∧ x.v < p.strings.length) →
      ∃ m1, MoleculeParser.ResolveLabelsLoop p l m = some m1 ∧
        ∀ s, m1.get s = (p.resolvedValue l s).or (m.get s) := by
  intro l
  induction l with
  | nil =>
    intro m _
    exact ⟨m, rfl, fun s => by simp [MoleculeParser.resolvedValue]⟩
  | cons x rest ih =>
    intro m hrange
    have hx := hrange x (List.mem_cons_self _ _)
    have hrest : ∀ y ∈ rest, 0 ≤ y.k ∧ y.k < p.strings.length ∧ 0 ≤ y.v ∧
        y.v < p.strings.length := fun y hy => hrange y (List.mem_cons_of_mem _ hy)
    unfold MoleculeParser.ResolveLabelsLoop
    by_cases hk : x.k = 0
    · simp only [hk, ne_eq, not_true_eq_false, if_false]
      obtain ⟨m1, h1, h2⟩ := ih m hrest
      refine ⟨m1, h1, ?_⟩
      intro s
      rw [h2]
      simp [MoleculeParser.resolvedValue, List.filter_cons, hk]
    · obtain ⟨sk, hsk⟩ := string_isSome p x.k hx.1 hx.2.1
      obtain ⟨sv, hsv⟩ := string_isSome p x.v hx.2.2.1 hx.2.2.2
      simp only [ne_eq, hk, not_false_eq_true, if_true, hsk, hsv]
      obtain ⟨m1, h1, h2⟩ := ih (m.set sk sv) hrest
      refine ⟨m1, h1, ?_⟩
      intro s
      rw [h2, StringMap.get_set]
      have hfilter : (List.filter (fun y : label => decide (y.k ≠ 0)) (x :: rest))
          = x :: List.filter (fun y : label => decide (y.k ≠ 0)) rest := by
        rw [List.filter_cons]
        simp [hk]
      unfold MoleculeParser.resolvedValue
      rw [hfilter, List.reverse_cons, List.find?_append]
      cases hfind : List.find? (fun y : label => decide (p.string y.k = some s))
          (List.filter (fun y : label => decide (y.k ≠ 0)) rest).reverse with
      | some y =>
        have hy : y ∈ rest := by
          have := List.mem_of_find?_eq_some hfind
          rw [List.mem_reverse] at this
          exact (List.mem_filter.mp this).1
        have hyr := hrest y hy
        obtain ⟨sv1, hsv1⟩ := string_isSome p y.v hyr.2.2.1 hyr.2.2.2
        simp [hsv1]
      | none =>
        by_cases hs : sk = s
        · simp [hsk, hsv, hs]
        · have : ¬ (some sk = some s) := fun e => hs (Option.some.inj e)
          simp [hsk, hs]

/-- C10 (sentinel filtering on emission). For a label list whose key and
value indices are inside the string table, `ResolveLabels` returns a map, and
for every string `s` the map's entry for `s` is the value string of the last
label with nonzero key index whose key string is `s` (no entry when there is
none); labels with key index 0 contribute nothing, the result being that of
the list without them. -/
theorem ResolveLabels_spec (p : MoleculeParser) (l : Labels)
    (hrange : ∀ x ∈ l, 0 ≤ x.k ∧ x.k < p.strings.length ∧ 0 ≤ x.v ∧ x.v < p.strings.length) :
    (∃ m, p.ResolveLabels l = some m ∧ ∀ s, m.get s = p.resolvedValue l s) ∧
    p.ResolveLabels l = p.ResolveLabels (l.filter fun x => x.k ≠ 0) := by
  constructor
  · obtain ⟨m, h1, h2⟩ := ResolveLabelsLoop_spec p l [] hrange
    refine ⟨m, h1, ?_⟩
    intro s
    rw [h2]
    simp [StringMap.get]
  · unfold MoleculeParser.ResolveLabels
    generalize ([] : StringMap) = m0
    clear hrange
    induction l generalizing m0 with
    | nil => rfl
    | cons x rest ih =>
      by_cases hk : x.k = 0
      · have hf : List.filter (fun y : label => decide (y.k ≠ 0)) (x :: rest)
            = List.filter (fun y : label => decide (y.k ≠ 0)) rest := by
          rw [List.filter_cons]
          simp [hk]
        rw [hf, ← ih]
        simp only [MoleculeParser.ResolveLabelsLoop, hk, ne_eq, not_true_eq_false, if_false]
      · have hf : List.filter (fun y : label => decide (y.k ≠ 0)) (x :: rest)
            = x :: List.filter (fun y : label => decide (y.k ≠ 0)) rest := by
          rw [List.filter_cons]
          simp [hk]
        rw [hf]
        simp only [MoleculeParser.ResolveLabelsLoop, ne_eq, hk, not_false_eq_true, if_true]
        cases p.string x.k with
        | none => rfl
        | some sk =>
          cases p.string x.v with
          | none => rfl
          | some sv => exact ih _

/-- Witness of C10: two labels with key string `foo`, the later one winning,
and one label with key index 0. -/
theorem ResolveLabels_spec_witness :
    exParser.ResolveLabels [{ k := 6, v := 7 }, { k := 0, v := 1 }, { k := 6, v := 3 }]
      = some [("foo", "alloc_objects")] :=
  ((ResolveLabels_spec exParser [{ k := 6, v := 7 }, { k := 0, v := 1 }, { k := 6, v := 3 }]
    (by decide)).2).trans (by decide)

/-! ## Keys of a generation built by `createTrees` are declared sample types -/

theorem onlyTmpSample_refl (p : MoleculeParser) : p.onlyTmpSample p := rfl

theorem onlyTmpSample_trans {p q r : MoleculeParser} (h1 : p.onlyTmpSample q)
    (h2 : q.onlyTmpSample r) : p.onlyTmpSample r := by
  unfold MoleculeParser.onlyTmpSample at *
  rw [h2, h1]

theorem onlyTmpSample_types {p q : MoleculeParser} (h : p.onlyTmpSample q) :
    q.types = p.types := by
  unfold MoleculeParser.onlyTmpSample at h
  rw [h]

theorem onlyTmpSample_sampleTypesParsed {p q : MoleculeParser} (h : p.onlyTmpSample q) :
    q.sampleTypesParsed = p.sampleTypesParsed := by
  unfold MoleculeParser.onlyTmpSample at h
  rw [h]

theorem onlyTmpSample_update (p : MoleculeParser) (ts : sample) :
    p.onlyTmpSample { p with tmpSample := ts } := rfl

theorem addStackFrame_only (p : MoleculeParser) (fID : Nat) :
    p.onlyTmpSample (p.addStackFrame fID).1 := by
  unfold MoleculeParser.addStackFrame MoleculeParser.onlyTmpSample
  split
  · rfl
  · split
    · rfl
    · split <;> rfl

theorem addStackFrames_only :
    ∀ (l : List Nat) (p : MoleculeParser),
      p.onlyTmpSample (MoleculeParser.addStackFrames l p).1 := by
  intro l
  induction l with
  | nil => intro p; rfl
  | cons fID rest ih =>
    intro p
    unfold MoleculeParser.addStackFrames
    have h := addStackFrame_only p fID
    rcases hf : p.addStackFrame fID with ⟨p1, out⟩
    rw [hf] at h
    cases out with
    | nil => exact onlyTmpSample_trans h (ih p1)
    | err msg => exact h
    | panic => exact h

theorem addStackLocation_only (p : MoleculeParser) (lID : Nat) :
    p.onlyTmpSample (p.addStackLocation lID).1 := by
  unfold MoleculeParser.addStackLocation
  cases p.finder.FindLocation lID with
  | none => rfl
  | some loc =>
    dsimp only
    have h := addStackFrame_only p loc.fn1
    rcases hf : p.addStackFrame loc.fn1 with ⟨p1, out⟩
    rw [hf] at h
    cases out with
    | nil => exact onlyTmpSample_trans h (addStackFrames_only _ p1)
    | err msg => exact h
    | panic => exact h

theorem addStackLocations_only :
    ∀ (l : List Nat) (p : MoleculeParser),
      p.onlyTmpSample (MoleculeParser.addStackLocations l p).1 := by
  intro l
  induction l with
  | nil => intro p; rfl
  | cons lID rest ih =>
    intro p
    unfold MoleculeParser.addStackLocations
    have h := addStackLocation_only p lID
    rcases hf : p.addStackLocation lID with ⟨p1, out⟩
    rw [hf] at h
    cases out with
    | nil => exact onlyTmpSample_trans h (ih p1)
    | err msg => exact h
    | panic => exact h

theorem parseSampleVTField_only (p : MoleculeParser) (f : SampleField) :
    p.onlyTmpSample (p.parseSampleVTField f).1 := by
  cases f with
  | locationIDBytes ids err =>
    unfold MoleculeParser.parseSampleVTField
    dsimp only
    have h := addStackLocations_only ids p
    rcases hf : MoleculeParser.addStackLocations ids p with ⟨p1, out⟩
    rw [hf] at h
    cases out <;> exact h
  | locationIDVarint id => exact addStackLocation_only p id
  | valueBytes vals err => rfl
  | valueVarint n => rfl
  | label l =>
    cases l with
    | error e => rfl
    | ok l =>
      unfold MoleculeParser.parseSampleVTField
      by_cases hk : l.k = 0
      · simp only [hk, ne_eq, not_true_eq_false, if_false]
        rfl
      · simp only [ne_eq, hk, not_false_eq_true, if_true]
        rfl
  | other => rfl

theorem parseSampleVTFields_only :
    ∀ (l : List SampleField) (err : Option String) (p : MoleculeParser),
      p.onlyTmpSample (MoleculeParser.parseSampleVTFields l err p).1 := by
  intro l
  induction l with
  | nil => intro err p; rfl
  | cons f rest ih =>
    intro err p
    unfold MoleculeParser.parseSampleVTFields
    have h := parseSampleVTField_only p f
    rcases hf : p.parseSampleVTField f with ⟨p1, out⟩
    rw [hf] at h
    cases out with
    | nil => exact onlyTmpSample_trans h (ih err p1)
    | err msg => exact h
    | panic => exact h

theorem mem_upsert_or (hash : Labels → Nat) (ty : Int) (l : Labels) (f : Tree → Tree) :
    ∀ (c : LabelsCache) (tes : Int × List (Nat × LabelsCacheEntry)),
      tes ∈ c.GetOrCreateTree hash ty l f → tes.1 = ty ∨ ∃ tes1 ∈ c, tes1.1 = tes.1 := by
  intro c
  induction c with
  | nil =>
    intro tes h
    simp only [LabelsCache.GetOrCreateTree, List.mem_singleton] at h
    exact Or.inl (by rw [h])
  | cons x rest ih =>
    intro tes h
    obtain ⟨ty1, es⟩ := x
    unfold LabelsCache.GetOrCreateTree at h
    by_cases hty : ty1 = ty
    · simp only [hty, if_true, List.mem_cons] at h
      rcases h with h | h
      · exact Or.inl (by rw [h])
      · exact Or.inr ⟨tes, List.mem_cons_of_mem _ h, rfl⟩
    · simp only [hty, if_false, List.mem_cons] at h
      rcases h with h | h
      · exact Or.inr ⟨(ty1, es), List.mem_cons_self _ _, by rw [h]⟩
      · rcases ih tes h with h1 | ⟨tes1, h1, h2⟩
        · exact Or.inl h1
        · exact Or.inr ⟨tes1, List.mem_cons_of_mem _ h1, h2⟩

theorem createTreesLoop_keys (env : Env) (p : MoleculeParser) (P : Int → Prop)
    (hP : ∀ ty ∈ p.types, P ty) :
    ∀ (vis : List Nat) (i : Nat) (c c1 : LabelsCache),
      (∀ tes ∈ c, P tes.1) →
      MoleculeParser.createTreesLoop env p vis i c = some c1 → ∀ tes ∈ c1, P tes.1 := by
  intro vis
  induction vis with
  | nil =>
    intro i c c1 hc h
    simp only [MoleculeParser.createTreesLoop, Option.some.injEq] at h
    rw [← h]
    exact hc
  | cons vi rest ih =>
    intro i c c1 hc h
    unfold MoleculeParser.createTreesLoop at h
    cases hv : p.tmpSample.tmpValues[vi]? with
    | none => simp [hv] at h
    | some x =>
      simp only [hv] at h
      by_cases hz : toUint64 x = 0
      · simp only [hz, if_true] at h
        exact ih _ _ _ hc h
      · simp only [hz, if_false] at h
        cases hty : p.types[i]? with
        | none => simp [hty] at h
        | some ty =>
          simp only [hty] at h
          have hPty : P ty := hP ty (List.getElem?_mem hty)
          have hins : ∀ (c0 : LabelsCache) (l : Labels) (f : Tree → Tree),
              (∀ tes ∈ c0, P tes.1) →
              ∀ tes ∈ c0.GetOrCreateTree env.hash ty l f, P tes.1 := by
            intro c0 l f h0 tes htes
            rcases mem_upsert_or env.hash ty l f c0 tes htes with h1 | ⟨tes1, h1, h2⟩
            · rw [h1]; exact hPty
            · rw [← h2]; exact h0 tes1 h1
          split at h
          · split at h
            · exact ih _ _ _ (hins _ _ _ hc) h
            · exact ih _ _ _ (hins _ _ _ (hins _ _ _ hc)) h
          · exact ih _ _ _ (hins _ _ _ hc) h

theorem parseSampleVT_keys (env : Env) (p : MoleculeParser) (m : SampleMsg)
    (c : LabelsCache) (P : Int → Prop) (hP : ∀ ty ∈ p.types, P ty)
    (hc : ∀ tes ∈ c, P tes.1) :
    p.onlyTmpSample (p.parseSampleVT env m c).1 ∧
    ∀ tes ∈ (p.parseSampleVT env m c).2.1, P tes.1 := by
  unfold MoleculeParser.parseSampleVT
  have h := parseSampleVTFields_only m.fields m.err
    { p with tmpSample := p.tmpSample.resetSample }
  dsimp only at h ⊢
  generalize MoleculeParser.parseSampleVTFields _ _ _ = r at h ⊢
  rcases r with ⟨p1, out⟩
  have hp1 : p.onlyTmpSample p1 :=
    onlyTmpSample_trans (onlyTmpSample_update p p.tmpSample.resetSample) h
  cases out with
  | nil =>
    simp only
    have hp2 : p.onlyTmpSample { p1 with tmpSample := { p1.tmpSample with
        tmpStack := reverseStack p1.tmpSample.tmpStack } } :=
      onlyTmpSample_trans hp1 (onlyTmpSample_update p1 _)
    have htypes := onlyTmpSample_types hp2
    cases hct : MoleculeParser.createTrees env { p1 with tmpSample := { p1.tmpSample with
        tmpStack := reverseStack p1.tmpSample.tmpStack } } c with
    | none => exact ⟨hp2, hc⟩
    | some c1 =>
      refine ⟨hp2, ?_⟩
      exact createTreesLoop_keys env _ P (by rw [htypes]; exact hP) _ 0 c c1 hc hct
  | err msg => exact ⟨hp1, hc⟩
  | panic => exact ⟨hp1, hc⟩

theorem parseSamples_keys (env : Env) (P : Int → Prop) :
    ∀ (l : List SampleMsg) (out : Outcome) (p : MoleculeParser) (c : LabelsCache),
      (∀ ty ∈ p.types, P ty) → (∀ tes ∈ c, P tes.1) →
      p.onlyTmpSample (MoleculeParser.parseSamples env l out p c).1 ∧
      ∀ tes ∈ (MoleculeParser.parseSamples env l out p c).2.1, P tes.1 := by
  intro l
  induction l with
  | nil => intro out p c _ hc; exact ⟨rfl, hc⟩
  | cons m rest ih =>
    intro out p c hP hc
    unfold MoleculeParser.parseSamples
    have h := parseSampleVT_keys env p m c P hP hc
    rcases hf : p.parseSampleVT env m c with ⟨p1, c1, o⟩
    rw [hf] at h
    obtain ⟨h1, h2⟩ := h
    cases o with
    | nil =>
      simp only
      have htypes : p1.types = p.types := onlyTmpSample_types h1
      have := ih out p1 c1 (by rw [htypes]; exact hP) h2
      exact ⟨onlyTmpSample_trans h1 this.1, this.2⟩
    | err msg => exact ⟨h1, h2⟩
    | panic => exact ⟨h1, h2⟩

theorem checkKnownSampleTypesLoop_types :
    ∀ (l : List valueType) (i : Nat) (p : MoleculeParser),
      (MoleculeParser.checkKnownSampleTypesLoop l i p).1.sampleTypesParsed
        = p.sampleTypesParsed ∧
      ∀ ty ∈ (MoleculeParser.checkKnownSampleTypesLoop l i p).1.types,
        ty ∈ p.types ∨ ∃ vt ∈ l, vt.type = ty := by
  intro l
  induction l with
  | nil => intro i p; exact ⟨rfl, fun ty h => Or.inl h⟩
  | cons s rest ih =>
    intro i p
    unfold MoleculeParser.checkKnownSampleTypesLoop
    cases p.string s.type with
    | none => exact ⟨rfl, fun ty h => Or.inl h⟩
    | some ssType =>
      by_cases hf : p.sampleTypesFilter ssType = true
      · simp only [hf, if_true]
        obtain ⟨h1, h2⟩ := ih (i + 1)
          { p with indexes := p.indexes ++ [i], types := p.types ++ [s.type] }
        refine ⟨h1, ?_⟩
        intro ty hty
        rcases h2 ty hty with h | ⟨vt, hvt, he⟩
        · simp only [List.mem_append, List.mem_singleton] at h
          rcases h with h | h
          · exact Or.inl h
          · exact Or.inr ⟨s, List.mem_cons_self _ _, h.symm⟩
        · exact Or.inr ⟨vt, List.mem_cons_of_mem _ hvt, he⟩
      · simp only [hf]
        obtain ⟨h1, h2⟩ := ih (i + 1) p
        refine ⟨h1, ?_⟩
        intro ty hty
        rcases h2 ty hty with h | ⟨vt, hvt, he⟩
        · exact Or.inl h
        · exact Or.inr ⟨vt, List.mem_cons_of_mem _ hvt, he⟩

theorem checkKnownSampleTypes_types_resolve (p : MoleculeParser) :
    ∀ ty ∈ p.checkKnownSampleTypes.1.types,
      (p.checkKnownSampleTypes.1.resolveSampleType ty).isSome = true := by
  unfold MoleculeParser.checkKnownSampleTypes
  have h := checkKnownSampleTypesLoop_types p.sampleTypesParsed 0
    { p with indexes := [], types := [] }
  dsimp only at h ⊢
  generalize MoleculeParser.checkKnownSampleTypesLoop _ _ _ = r at h ⊢
  rcases r with ⟨p1, out⟩
  obtain ⟨h1, h2⟩ := h
  simp only at h1 h2
  have key : ∀ ty ∈ p1.types, (p1.resolveSampleType ty).isSome = true := by
    intro ty hty
    rcases h2 ty hty with h | ⟨vt, hvt, he⟩
    · simp at h
    · unfold MoleculeParser.resolveSampleType
      rw [List.find?_isSome]
      exact ⟨vt, by rw [h1]; exact hvt, by simpa using he⟩
  cases out with
  | nil =>
    by_cases hz : p1.indexes.length = 0
    · simp only [hz, if_true]
      exact key
    · simp only [hz, if_false]
      exact key
  | err msg => exact key
  | panic => exact key

/-- The generation `parsePprofDecompressed` hands to `iterate` has only
declared sample types as metric-type keys: the hypothesis of the rotation
theorem holds on every call. -/
theorem newCache_keys_resolve (env : Env) (p : MoleculeParser) (samples : List SampleMsg)
    (out : Outcome) :
    ∀ tes ∈ (MoleculeParser.parseSamples env samples out p.checkKnownSampleTypes.1 []).2.1,
      ((MoleculeParser.parseSamples env samples out
          p.checkKnownSampleTypes.1 []).1.resolveSampleType tes.1).isSome = true := by
  have h := parseSamples_keys env
    (fun ty => (p.checkKnownSampleTypes.1.resolveSampleType ty).isSome = true)
    samples out p.checkKnownSampleTypes.1 []
    (checkKnownSampleTypes_types_resolve p) (by simp)
  obtain ⟨h1, h2⟩ := h
  intro tes htes
  have := h2 tes htes
  unfold MoleculeParser.resolveSampleType at this ⊢
  rw [onlyTmpSample_sampleTypesParsed h1]
  exact this

/-! ## Stack resolution -/

theorem string_eq_getD (p : MoleculeParser) (i : Int) (h0 : 0 ≤ i)
    (h1 : i < p.strings.length) : p.string i = some (p.strings.getD i.toNat "") := by
  unfold MoleculeParser.string
  rw [if_pos h0]
  have : i.toNat < p.strings.length := by omega
  rw [List.getD_eq_getElem?_getD, List.getElem?_eq_getElem this]
  rfl

theorem pushStack_nil (p : MoleculeParser) : p.pushStack [] = p := by
  unfold MoleculeParser.pushStack
  rw [List.append_nil]

theorem pushStack_pushStack (p : MoleculeParser) (a b : List Bytes) :
    (p.pushStack a).pushStack b = p.pushStack (a ++ b) := by
  unfold MoleculeParser.pushStack
  simp only [List.append_assoc]

theorem frameNames_cons (p : MoleculeParser) (fID : Nat) (rest : List Nat) :
    p.frameNames (fID :: rest) = p.frameNames [fID] ++ p.frameNames rest := by
  unfold MoleculeParser.frameNames
  rw [List.filterMap_cons, List.filterMap_cons, List.filterMap_nil]
  split <;> rfl

theorem addStackFrame_eq (p : MoleculeParser) (fID : Nat)
    (hnames : ∀ f ∈ p.finder.functions, 0 ≤ f.name ∧ f.name < p.strings.length) :
    p.addStackFrame fID = (p.pushStack (p.frameNames [fID]), Outcome.nil) := by
  unfold MoleculeParser.addStackFrame MoleculeParser.frameNames
  by_cases h0 : fID = 0
  · simp only [h0, if_true, List.filterMap_cons, List.filterMap_nil]
    rw [pushStack_nil]
  · simp only [h0, if_false, List.filterMap_cons, List.filterMap_nil]
    cases hf : p.finder.FindFunction fID with
    | none =>
      simp only [Option.map_none']
      rw [pushStack_nil]
    | some f =>
      have hmem : f ∈ p.finder.functions := by
        unfold finder.FindFunction at hf
        exact List.mem_of_find?_eq_some hf
      have hr := hnames f hmem
      simp only [Option.map_some', string_eq_getD p f.name hr.1 hr.2]
      rfl

theorem addStackFrames_eq :
    ∀ (l : List Nat) (p : MoleculeParser),
      (∀ f ∈ p.finder.functions, 0 ≤ f.name ∧ f.name < p.strings.length) →
      MoleculeParser.addStackFrames l p = (p.pushStack (p.frameNames l), Outcome.nil) := by
  intro l
  induction l with
  | nil =>
    intro p _
    unfold MoleculeParser.addStackFrames MoleculeParser.frameNames
    rw [List.filterMap_nil, pushStack_nil]
  | cons fID rest ih =>
    intro p hnames
    unfold MoleculeParser.addStackFrames
    rw [addStackFrame_eq p fID hnames]
    simp only
    rw [ih (p.pushStack (p.frameNames [fID])) hnames, pushStack_pushStack,
      frameNames_cons p fID rest]
    rfl

/-- C11 (stack resolution). When every function of the symbol index has its
name index inside the string table, `addStackLocation` returns no error for
every raw location id; if the index finds the location with primary function
`fn1` and extra functions `extraFn`, the sample stack grows by the interned
names `strings[name(f)]` of the ids `f` of `[fn1] ++ extraFn` that are nonzero
and found by `FindFunction`, in that order, the others being omitted, and
nothing else in the parser changes; if the location is not found the parser
is unchanged. -/
theorem stack_resolution (p : MoleculeParser) (lID : Nat)
    (hnames : ∀ f ∈ p.finder.functions, 0 ≤ f.name ∧ f.name < p.strings.length) :
    (p.addStackLocation lID).2 = Outcome.nil ∧
    (∀ loc, p.finder.FindLocation lID = some loc →
      (p.addStackLocation lID).1 = p.pushStack (p.frameNames ([loc.fn1] ++ loc.extraFn))) ∧
    (p.finder.FindLocation lID = none → (p.addStackLocation lID).1 = p) := by
  unfold MoleculeParser.addStackLocation
  cases hloc : p.finder.FindLocation lID with
  | none => exact ⟨rfl, fun loc h => by simp at h, fun _ => rfl⟩
  | some loc =>
    simp only [addStackFrame_eq p loc.fn1 hnames]
    rw [addStackFrames_eq loc.extraFn (p.pushStack (p.frameNames [loc.fn1])) hnames,
      pushStack_pushStack]
    refine ⟨rfl, ?_, fun h => by simp at h⟩
    intro loc1 h1
    have : loc = loc1 := Option.some.inj h1
    subst this
    rw [List.singleton_append, frameNames_cons p loc.fn1 loc.extraFn]
    rfl

/-- Witness of C11: location 4 resolves to `leaf` and `mid`; the ids 0 and
99 are omitted. -/
theorem stack_resolution_witness :
    (exStackParser.addStackLocation 4).2 = Outcome.nil ∧
    (exStackParser.addStackLocation 4).1.tmpSample.tmpStack = ["leaf", "mid"] :=
  ⟨(stack_resolution exStackParser 4 (by decide)).1,
   (congrArg (fun q : MoleculeParser => q.tmpSample.tmpStack)
      ((stack_resolution exStackParser 4 (by decide)).2.1
        { id := 4, fn1 := 1, extraFn := [0, 2, 99] } (by decide))).trans (by decide)⟩

/-! ## Stack order -/

theorem reverseStackLoop_length :
    ∀ (fuel : Nat) (s : List Bytes) (i j : Nat),
      (reverseStackLoop fuel s i j).length = s.length := by
  intro fuel
  induction fuel with
  | zero => intro s i j; rfl
  | succ n ih =>
    intro s i j
    unfold reverseStackLoop
    by_cases h : i < j
    · rw [if_pos h, ih]
      simp
    · rw [if_neg h]

theorem reverseStackLoop_getElem? :
    ∀ (fuel : Nat) (s : List Bytes) (i j : Nat),
      j ≤ i + fuel → (i < j → j < s.length) →
      ∀ k, (reverseStackLoop fuel s i j)[k]?
        = if i ≤ k ∧ k ≤ j then s[i + j - k]? else s[k]? := by
  intro fuel
  induction fuel with
  | zero =>
    intro s i j hfuel _ k
    unfold reverseStackLoop
    by_cases hk : i ≤ k ∧ k ≤ j
    · rw [if_pos hk]
      have : i + j - k = k := by omega
      rw [this]
    · rw [if_neg hk]
  | succ n ih =>
    intro s i j hfuel hlen k
    unfold reverseStackLoop
    by_cases hij : i < j
    · rw [if_pos hij]
      have hj : j < s.length := hlen hij
      have hi : i < s.length := by omega
      rw [ih _ (i + 1) (j - 1) (by omega) (by intro _; simp; omega) k]
      have hsj : s.getD j "" = s[j] := by
        rw [List.getD_eq_getElem?_getD, List.getElem?_eq_getElem hj]
        rfl
      have hsi : s.getD i "" = s[i] := by
        rw [List.getD_eq_getElem?_getD, List.getElem?_eq_getElem hi]
        rfl
      rw [hsj, hsi]
      by_cases hk1 : i + 1 ≤ k ∧ k ≤ j - 1
      · have hk : i ≤ k ∧ k ≤ j := by omega
        rw [if_pos hk1, if_pos hk]
        have e : i + 1 + (j - 1) - k = i + j - k := by omega
        rw [e, List.getElem?_set_ne (by omega), List.getElem?_set_ne (by omega)]
      · rw [if_neg hk1]
        by_cases hki : k = i
        · subst hki
          have hk : k ≤ k ∧ k ≤ j := by omega
          rw [if_pos hk, List.getElem?_set_ne (by omega), List.getElem?_set]
          simp only [if_true, hi]
          have e : k + j - k = j := by omega
          rw [e, List.getElem?_eq_getElem hj]
        · by_cases hkj : k = j
          · subst hkj
            have hk : i ≤ k ∧ k ≤ k := by omega
            rw [if_pos hk, List.getElem?_set]
            simp only [if_true, List.length_set, hj]
            have e : i + k - k = i := by omega
            rw [e, List.getElem?_eq_getElem hi]
          · have hk : ¬ (i ≤ k ∧ k ≤ j) := by omega
            rw [if_neg hk, List.getElem?_set_ne (fun h => hkj h.symm),
              List.getElem?_set_ne (fun h => hki h.symm)]
    · rw [if_neg hij]
      by_cases hk : i ≤ k ∧ k ≤ j
      · rw [if_pos hk]
        have : i + j - k = k := by omega
        rw [this]
      · rw [if_neg hk]

theorem reverseStack_eq_reverse (s : List Bytes) : reverseStack s = s.reverse := by
  apply List.ext_getElem?
  intro k
  unfold reverseStack
  rw [reverseStackLoop_getElem? s.length s 0 (s.length - 1) (by omega) (by intro h; omega) k]
  by_cases hk : k < s.length
  · have h1 : 0 ≤ k ∧ k ≤ s.length - 1 := by omega
    rw [if_pos h1, List.getElem?_reverse hk]
    congr 1
    omega
  · have h2 : s.reverse[k]? = none := by
      apply List.getElem?_eq_none
      simp only [List.length_reverse]
      omega
    have h3 : s[k]? = none := List.getElem?_eq_none (by omega)
    rw [h2]
    by_cases h1 : 0 ≤ k ∧ k ≤ s.length - 1
    · rw [if_pos h1]
      have : s.length = 0 := by omega
      apply List.getElem?_eq_none
      omega
    · rw [if_neg h1, h3]

/-- C12 (stack order). For every list of frames `s`, `reverseStack` leaves
exactly the reverse of `s`: the same length, with element `i` of the result
being element `len - 1 - i` of `s`; applying it twice restores `s`; and a
sample whose resolved frames are, in wire order, `leaf`, `mid`, `root` is
inserted by `parseSample` into its tree as `root`, `mid`, `leaf`. -/
theorem reverseStack_reverses (s : List Bytes) :
    reverseStack s = s.reverse ∧
    (reverseStack s).length = s.length ∧
    (∀ i, i < s.length → (reverseStack s)[i]? = s[s.length - 1 - i]?) ∧
    reverseStack (reverseStack s) = s ∧
    reverseStack ["leaf", "mid", "root"] = ["root", "mid", "leaf"] ∧
    (exStackParser.parseSample exEnv exStackMsg []).2.1
      = [(1, [(0, { Labels := [], Tree := [(["root", "mid", "leaf"], 5)] })])] := by
  refine ⟨reverseStack_eq_reverse s, ?_, ?_, ?_, by decide, by decide⟩
  · rw [reverseStack_eq_reverse, List.length_reverse]
  · intro i hi
    rw [reverseStack_eq_reverse, List.getElem?_reverse hi]
  · rw [reverseStack_eq_reverse, reverseStack_eq_reverse, List.reverse_reverse]

/-! ## Retained columns -/

theorem checkKnownSampleTypesLoop_eq :
    ∀ (l : List valueType) (i : Nat) (p : MoleculeParser),
      (∀ vt ∈ l, 0 ≤ vt.type ∧ vt.type < p.strings.length) →
      MoleculeParser.checkKnownSampleTypesLoop l i p
        = ({ p with
              indexes := p.indexes
                ++ ((l.enumFrom i).filter fun ivt => p.accepts ivt.2).map Prod.fst
              types := p.types
                ++ ((l.enumFrom i).filter fun ivt => p.accepts ivt.2).map
                    fun ivt => ivt.2.type },
           Outcome.nil) := by
  intro l
  induction l with
  | nil =>
    intro i p _
    simp [MoleculeParser.checkKnownSampleTypesLoop]
  | cons vt rest ih =>
    intro i p hrange
    have hvt := hrange vt (List.mem_cons_self _ _)
    have hrest : ∀ x ∈ rest, 0 ≤ x.type ∧ x.type < p.strings.length :=
      fun x hx => hrange x (List.mem_cons_of_mem _ hx)
    obtain ⟨name, hname⟩ := string_isSome p vt.type hvt.1 hvt.2
    unfold MoleculeParser.checkKnownSampleTypesLoop
    simp only [hname]
    have hacc : p.accepts vt = p.sampleTypesFilter name := by
      unfold MoleculeParser.accepts
      rw [hname]
    rw [List.enumFrom_cons, List.filter_cons]
    by_cases hf : p.sampleTypesFilter name = true
    · have hacc1 : p.accepts (i, vt).2 = true := by rw [hacc]; exact hf
      simp only [hf, if_true, hacc1]
      rw [ih (i + 1) { p with indexes := p.indexes ++ [i], types := p.types ++ [vt.type] }
        hrest]
      have e : ∀ x : valueType,
          MoleculeParser.accepts
            { p with indexes := p.indexes ++ [i], types := p.types ++ [vt.type] } x
            = p.accepts x := fun _ => rfl
      simp only [e, List.map_cons, List.append_assoc, List.singleton_append]
    · have hacc1 : ¬ (p.accepts (i, vt).2 = true) := by rw [hacc]; exact hf
      simp only [hf, hacc1, if_false, Bool.false_eq_true]
      exact ih (i + 1) p hrest

theorem checkKnownSampleTypes_eq (p : MoleculeParser)
    (hrange : ∀ vt ∈ p.sampleTypesParsed, 0 ≤ vt.type ∧ vt.type < p.strings.length) :
    p.checkKnownSampleTypes
      = ({ p with indexes := p.retained.map Prod.fst
                  types := p.retained.map fun ivt => ivt.2.type },
         if (p.retained.map Prod.fst).length = 0 then Outcome.err "unknown sample types"
         else Outcome.nil) := by
  unfold MoleculeParser.checkKnownSampleTypes
  dsimp only
  rw [checkKnownSampleTypesLoop_eq p.sampleTypesParsed 0 { p with indexes := [], types := [] }
    hrange]
  have e : ∀ x : valueType,
      MoleculeParser.accepts { p with indexes := [], types := [] } x = p.accepts x :=
    fun _ => rfl
  simp only [e, List.nil_append]
  unfold MoleculeParser.retained
  split <;> rfl

theorem retained_mem (p : MoleculeParser) (i : Nat) (vt : valueType) :
    (i, vt) ∈ p.retained ↔ p.sampleTypesParsed[i]? = some vt ∧ p.accepts vt = true := by
  unfold MoleculeParser.retained
  rw [List.mem_filter, List.mk_mem_enumFrom_iff_le_and_getElem?_sub]
  simp

theorem retained_congr (p p1 : MoleculeParser)
    (h1 : p1.sampleTypesParsed = p.sampleTypesParsed) (h2 : p1.strings = p.strings)
    (h3 : p1.sampleTypesFilter = p.sampleTypesFilter) : p1.retained = p.retained := by
  unfold MoleculeParser.retained MoleculeParser.accepts MoleculeParser.string
  rw [h1, h2, h3]

/-- C18 (retained-column selection). For declared sample types whose name
indices are inside the string table, `checkKnownSampleTypes` sets `p.indexes`
to the strictly increasing list of all positions `i` such that the filter
accepts `strings[sampleTypesParsed[i].Type]`, and `p.types` to the list of the
same length with `p.types[j] = sampleTypesParsed[p.indexes[j]].Type`; two
parsers with the same declared sample types, string table and filter get
the same lists. -/
theorem retained_column_selection (p : MoleculeParser)
    (hrange : ∀ vt ∈ p.sampleTypesParsed, 0 ≤ vt.type ∧ vt.type < p.strings.length) :
    p.checkKnownSampleTypes.1.indexes = p.retained.map Prod.fst ∧
    p.checkKnownSampleTypes.1.types = p.retained.map (fun ivt => ivt.2.type) ∧
    p.checkKnownSampleTypes.1.indexes.Pairwise (fun a b => a < b) ∧
    (∀ i, i ∈ p.checkKnownSampleTypes.1.indexes ↔
      ∃ vt name, p.sampleTypesParsed[i]? = some vt ∧ p.string vt.type = some name ∧
        p.sampleTypesFilter name = true) ∧
    p.checkKnownSampleTypes.1.types.length = p.checkKnownSampleTypes.1.indexes.length ∧
    (∀ (j i : Nat), p.checkKnownSampleTypes.1.indexes[j]? = some i →
      p.checkKnownSampleTypes.1.types[j]? = (p.sampleTypesParsed[i]?).map valueType.type) ∧
    (∀ p1 : MoleculeParser, p1.sampleTypesParsed = p.sampleTypesParsed →
      p1.strings = p.strings → p1.sampleTypesFilter = p.sampleTypesFilter →
      p1.checkKnownSampleTypes.1.indexes = p.checkKnownSampleTypes.1.indexes ∧
      p1.checkKnownSampleTypes.1.types = p.checkKnownSampleTypes.1.types) := by
  have hi : p.checkKnownSampleTypes.1.indexes = p.retained.map Prod.fst := by
    rw [checkKnownSampleTypes_eq p hrange]
  have ht : p.checkKnownSampleTypes.1.types = p.retained.map (fun ivt => ivt.2.type) := by
    rw [checkKnownSampleTypes_eq p hrange]
  refine ⟨hi, ht, ?_, ?_, ?_, ?_, ?_⟩
  · rw [hi]
    have hsub : List.Sublist (p.retained.map Prod.fst)
        ((p.sampleTypesParsed.enumFrom 0).map Prod.fst) :=
      List.Sublist.map Prod.fst (List.filter_sublist _)
    rw [List.enumFrom_map_fst] at hsub
    exact List.Pairwise.sublist hsub (List.pairwise_lt_range' 0 _)
  · intro i
    rw [hi, List.mem_map]
    constructor
    · rintro ⟨⟨i1, vt⟩, hmem, rfl⟩
      obtain ⟨h1, h2⟩ := (retained_mem p i1 vt).mp hmem
      unfold MoleculeParser.accepts at h2
      cases hs : p.string vt.type with
      | none => simp [hs] at h2
      | some name =>
        simp only [hs] at h2
        exact ⟨vt, name, h1, hs, h2⟩
    · rintro ⟨vt, name, h1, h2, h3⟩
      refine ⟨(i, vt), (retained_mem p i vt).mpr ⟨h1, ?_⟩, rfl⟩
      unfold MoleculeParser.accepts
      simp only [h2]
      exact h3
  · rw [hi, ht, List.length_map, List.length_map]
  · intro j i hj
    rw [hi, List.getElem?_map] at hj
    rw [ht, List.getElem?_map]
    cases hr : p.retained[j]? with
    | none => simp [hr] at hj
    | some ivt =>
      simp only [hr, Option.map_some', Option.some.injEq] at hj ⊢
      obtain ⟨i1, vt⟩ := ivt
      simp only at hj
      subst hj
      have hmem : (i1, vt) ∈ p.retained := List.getElem?_mem hr
      rw [((retained_mem p i1 vt).mp hmem).1]
      rfl
  · intro p1 h1 h2 h3
    have hrange1 : ∀ vt ∈ p1.sampleTypesParsed, 0 ≤ vt.type ∧ vt.type < p1.strings.length := by
      rw [h1, h2]
      exact hrange
    rw [hi, ht, checkKnownSampleTypes_eq p1 hrange1, retained_congr p p1 h1 h2 h3]
    exact ⟨rfl, rfl⟩

/-- Witness of C18: of the declared types `cpu`, `wall`, `alloc_objects` the
positions 0 and 2 are retained. -/
theorem retained_column_selection_witness :
    exThreeTypes.checkKnownSampleTypes.1.indexes = [0, 2] ∧
    exThreeTypes.checkKnownSampleTypes.1.types = [1, 3] :=
  ⟨((retained_column_selection exThreeTypes (by decide)).1).trans (by decide),
   ((retained_column_selection exThreeTypes (by decide)).2.1).trans (by decide)⟩

/-- C13 (no retained metric columns). For declared sample types whose name
indices are inside the string table, `checkKnownSampleTypes` returns the
error "unknown sample types" if and only if the filter accepts the name of no
declared sample type, and returns no error otherwise; and a call of
`parsePprofDecompressed` whose passes 1 and 2 lead to such a state returns
that error with the state `checkKnownSampleTypes` left and the storage sink
untouched, whatever samples the profile holds. -/
theorem no_retained_columns (p : MoleculeParser)
    (hrange : ∀ vt ∈ p.sampleTypesParsed, 0 ≤ vt.type ∧ vt.type < p.strings.length) :
    (p.checkKnownSampleTypes.2 = Outcome.err "unknown sample types" ↔
      ∀ vt ∈ p.sampleTypesParsed, ∀ name, p.string vt.type = some name →
        p.sampleTypesFilter name = false) ∧
    (p.checkKnownSampleTypes.2 = Outcome.err "unknown sample types" ∨
      p.checkKnownSampleTypes.2 = Outcome.nil) ∧
    (p.checkKnownSampleTypes.2 = Outcome.err "unknown sample types" →
      ∀ (env : Env) (p0 p1 : MoleculeParser) (profile : Profile) (sink : Sink),
        ({ p0 with strings := [], sampleTypesParsed := [] }).parseStructs profile
          = (p1, Outcome.nil) →
        p1.parseFunctionsAndLocations profile = (p, Outcome.nil) →
        p0.parsePprofDecompressed env profile sink
          = (p.checkKnownSampleTypes.1, sink, some "unknown sample types")) := by
  have heq := checkKnownSampleTypes_eq p hrange
  have hempty : (p.retained.map Prod.fst).length = 0 ↔
      ∀ vt ∈ p.sampleTypesParsed, ∀ name, p.string vt.type = some name →
        p.sampleTypesFilter name = false := by
    rw [List.length_map, List.length_eq_zero]
    constructor
    · intro h vt hvt name hname
      obtain ⟨i, hi, hget⟩ := List.getElem_of_mem hvt
      have hnot : (i, vt) ∉ p.retained := by rw [h]; simp
      rw [retained_mem] at hnot
      have hsome : p.sampleTypesParsed[i]? = some vt := by
        rw [List.getElem?_eq_getElem hi, hget]
      have hacc : ¬ p.accepts vt = true := fun h1 => hnot ⟨hsome, h1⟩
      unfold MoleculeParser.accepts at hacc
      simp only [hname] at hacc
      simpa using hacc
    · intro h
      rw [List.eq_nil_iff_forall_not_mem]
      rintro ⟨i, vt⟩ hmem
      obtain ⟨h1, h2⟩ := (retained_mem p i vt).mp hmem
      unfold MoleculeParser.accepts at h2
      cases hs : p.string vt.type with
      | none => simp [hs] at h2
      | some name =>
        simp only [hs] at h2
        have := h vt (List.getElem?_mem h1) name hs
        rw [this] at h2
        exact absurd h2 (by simp)
  have hout : p.checkKnownSampleTypes.2
      = if (p.retained.map Prod.fst).length = 0 then Outcome.err "unknown sample types"
        else Outcome.nil := by
    rw [heq]
  refine ⟨?_, ?_, ?_⟩
  · rw [hout, ← hempty]
    by_cases hz : (p.retained.map Prod.fst).length = 0
    · simp [hz]
    · simp [hz]
  · rw [hout]
    by_cases hz : (p.retained.map Prod.fst).length = 0
    · exact Or.inl (by rw [if_pos hz])
    · exact Or.inr (by rw [if_neg hz])
  · intro herr env p0 p1 profile sink hs ht
    unfold MoleculeParser.parsePprofDecompressed MoleculeParser.parsePprofDecompressedBody
    dsimp only
    rw [hs]
    simp only
    rw [ht]
    simp only
    rcases hc : p.checkKnownSampleTypes with ⟨p3, o3⟩
    rw [hc] at herr
    simp only at herr
    subst herr
    rfl

/-- Witness of C13: a call on a profile that declares only `wall` fails with
"unknown sample types" and writes nothing. -/
theorem no_retained_columns_witness :
    (NewStreamingParser exConfig).parsePprofDecompressed exEnv exProfileUnknown []
      = (exBeforeCheck.checkKnownSampleTypes.1, [], some "unknown sample types") :=
  (no_retained_columns exBeforeCheck (by decide)).2.2 (by decide) exEnv
    (NewStreamingParser exConfig)
    (({ NewStreamingParser exConfig with strings := [], sampleTypesParsed := [] }).parseStructs
      exProfileUnknown).1
    exProfileUnknown [] (by rfl) (by rfl)

theorem checkKnownSampleTypesLoop_bounds :
    ∀ (l : List valueType) (i : Nat) (p : MoleculeParser),
      (∀ vi ∈ (MoleculeParser.checkKnownSampleTypesLoop l i p).1.indexes,
        vi ∈ p.indexes ∨ (i ≤ vi ∧ vi < i + l.length)) ∧
      (MoleculeParser.checkKnownSampleTypesLoop l i p).1.types.length + p.indexes.length
        = (MoleculeParser.checkKnownSampleTypesLoop l i p).1.indexes.length + p.types.length := by
  intro l
  induction l with
  | nil => intro i p; exact ⟨fun vi h => Or.inl h, Nat.add_comm _ _⟩
  | cons s rest ih =>
    intro i p
    unfold MoleculeParser.checkKnownSampleTypesLoop
    cases p.string s.type with
    | none => exact ⟨fun vi h => Or.inl h, Nat.add_comm _ _⟩
    | some ssType =>
      by_cases hf : p.sampleTypesFilter ssType = true
      · simp only [hf, if_true]
        obtain ⟨h1, h2⟩ := ih (i + 1)
          { p with indexes := p.indexes ++ [i], types := p.types ++ [s.type] }
        refine ⟨?_, ?_⟩
        · intro vi hvi
          rcases h1 vi hvi with h | h
          · simp only [List.mem_append, List.mem_singleton] at h
            rcases h with h | h
            · exact Or.inl h
            · exact Or.inr (by simp only [List.length_cons]; omega)
          · exact Or.inr (by simp only [List.length_cons]; omega)
        · simp only [List.length_append, List.length_singleton] at h2
          omega
      · simp only [hf]
        obtain ⟨h1, h2⟩ := ih (i + 1) p
        refine ⟨?_, h2⟩
        intro vi hvi
        rcases h1 vi hvi with h | h
        · exact Or.inl h
        · exact Or.inr (by simp only [List.length_cons]; omega)

theorem checkKnownSampleTypes_bounds (p : MoleculeParser) :
    (∀ vi ∈ p.checkKnownSampleTypes.1.indexes,
      vi < p.checkKnownSampleTypes.1.sampleTypesParsed.length) ∧
    p.checkKnownSampleTypes.1.types.length = p.checkKnownSampleTypes.1.indexes.length := by
  unfold MoleculeParser.checkKnownSampleTypes
  have h := checkKnownSampleTypesLoop_bounds p.sampleTypesParsed 0
    { p with indexes := [], types := [] }
  have hs := (checkKnownSampleTypesLoop_types p.sampleTypesParsed 0
    { p with indexes := [], types := [] }).1
  dsimp only at h hs ⊢
  generalize MoleculeParser.checkKnownSampleTypesLoop _ _ _ = r at h hs ⊢
  rcases r with ⟨p1, out⟩
  obtain ⟨h1, h2⟩ := h
  simp only [List.length_nil, List.not_mem_nil, false_or, Nat.add_zero] at h1 h2 hs
  have key : (∀ vi ∈ p1.indexes, vi < p1.sampleTypesParsed.length) ∧
      p1.types.length = p1.indexes.length := by
    refine ⟨?_, h2⟩
    intro vi hvi
    rw [hs]
    have := (h1 vi hvi).2
    omega
  cases out with
  | nil =>
    dsimp only
    split <;> exact key
  | err msg => exact key
  | panic => exact key

/-- C20 (createTrees indexes in range). In every state that differs from the
one `checkKnownSampleTypes` left (on success in particular) at most in the
scratch sample, every element of `p.indexes` is smaller than the number of
declared sample types and `len(p.types) = len(p.indexes)`; so for a sample
that carries at least as many values as there are declared sample types,
`createTrees` completes without an index fault. -/
theorem createTrees_indexes_in_range (p : MoleculeParser) :
    ∀ q : MoleculeParser, p.checkKnownSampleTypes.1.onlyTmpSample q →
      (∀ vi ∈ q.indexes, vi < q.sampleTypesParsed.length) ∧
      q.types.length = q.indexes.length ∧
      ∀ (env : Env) (c : LabelsCache),
        q.sampleTypesParsed.length ≤ q.tmpSample.tmpValues.length →
        ∃ c1, q.createTrees env c = some c1 := by
  intro q hq
  obtain ⟨h1, h2⟩ := checkKnownSampleTypes_bounds p
  have hi : q.indexes = p.checkKnownSampleTypes.1.indexes := by
    unfold MoleculeParser.onlyTmpSample at hq
    rw [hq]
  have ht : q.types = p.checkKnownSampleTypes.1.types := onlyTmpSample_types hq
  have hs : q.sampleTypesParsed = p.checkKnownSampleTypes.1.sampleTypesParsed :=
    onlyTmpSample_sampleTypesParsed hq
  have hb : ∀ vi ∈ q.indexes, vi < q.sampleTypesParsed.length := by
    rw [hi, hs]
    exact h1
  have hl : q.types.length = q.indexes.length := by
    rw [hi, ht]
    exact h2
  refine ⟨hb, hl, ?_⟩
  intro env c hvals
  exact ⟨_, createTrees_eq env q c hl (fun vi hvi => Nat.lt_of_lt_of_le (hb vi hvi) hvals)⟩

/-- Witness of C20: after `checkKnownSampleTypes` on the example parser, a
sample with two values is inserted without fault. -/
theorem createTrees_indexes_in_range_witness :
    ∃ c1, ({ exParser.checkKnownSampleTypes.1 with tmpSample := exSampleTwoValues }).createTrees
      exEnv [] = some c1 :=
  (createTrees_indexes_in_range exParser
    { exParser.checkKnownSampleTypes.1 with tmpSample := exSampleTwoValues }
    (onlyTmpSample_update _ _)).2.2 exEnv [] (by decide)

/-! ## Sample rate -/

theorem unitNs_pos (u : String) : 1 ≤ unitNs u := by
  unfold unitNs
  split
  · decide
  · split
    · decide
    · split <;> decide

theorem wrapInt64_of_lt (x : Int) (h0 : 0 ≤ x) (h1 : x < 2 ^ 63) : wrapInt64 x = x := by
  unfold wrapInt64
  have hm : x % 2 ^ 64 = x := Int.emod_eq_of_lt h0 (by omega)
  rw [hm, if_pos h1]

theorem sampleRate_eq (p : MoleculeParser) (u : String)
    (hperiod : 0 < p.period) (hunit : 0 < p.periodType.unit)
    (hu : p.string p.periodType.unit = some u) :
    p.sampleRate
      = if wrapInt64 (unitNs u * p.period) = 0 then none
        else some (toUint32 (Int.tdiv 1000000000 (wrapInt64 (unitNs u * p.period)))) := by
  unfold MoleculeParser.sampleRate
  have hguard : ¬ (p.period ≤ 0 ∨ p.periodType.unit ≤ 0) := by omega
  rw [if_neg hguard]
  simp only [hu]
  rfl

/-- C14 (sample-rate formula). For a period greater than 0, a period-type unit
index greater than 0 whose string is `u`, and `unitNs u × period` inside the
`int64` range, `sampleRate` returns `floor(1 000 000 000 / (unitNs u ×
period))`, and that number is below `2 ^ 32`, so the conversion to `uint32`
does not truncate. -/
theorem sampleRate_formula (p : MoleculeParser) (u : String)
    (hperiod : 0 < p.period) (hunit : 0 < p.periodType.unit)
    (hu : p.string p.periodType.unit = some u)
    (hfit : unitNs u * p.period < 2 ^ 63) :
    ∃ r : Nat, p.sampleRate = some r ∧
      (r : Int) = 1000000000 / (unitNs u * p.period) ∧
      (r : Int) * (unitNs u * p.period) ≤ 1000000000 ∧
      1000000000 < ((r : Int) + 1) * (unitNs u * p.period) ∧
      r < 2 ^ 32 := by
  have hun := unitNs_pos u
  have hd : 0 < unitNs u * p.period := Int.mul_pos (by omega) hperiod
  have hw : wrapInt64 (unitNs u * p.period) = unitNs u * p.period :=
    wrapInt64_of_lt _ (le_of_lt hd) hfit
  have hq0 : 0 ≤ (1000000000 : Int) / (unitNs u * p.period) :=
    Int.ediv_nonneg (by decide) (le_of_lt hd)
  have hq1 : (1000000000 : Int) / (unitNs u * p.period) ≤ 1000000000 :=
    Int.ediv_le_self _ (by decide)
  have hmod : ((1000000000 : Int) / (unitNs u * p.period)) % 2 ^ 32
      = 1000000000 / (unitNs u * p.period) := Int.emod_eq_of_lt hq0 (by omega)
  refine ⟨((1000000000 : Int) / (unitNs u * p.period)).toNat, ?_, ?_, ?_, ?_, ?_⟩
  · rw [sampleRate_eq p u hperiod hunit hu, hw, if_neg (ne_of_gt hd),
      Int.tdiv_eq_ediv (by decide) (le_of_lt hd)]
    unfold toUint32
    rw [hmod]
  · exact Int.toNat_of_nonneg hq0
  · rw [Int.toNat_of_nonneg hq0]
    exact Int.ediv_mul_le _ (ne_of_gt hd)
  · rw [Int.toNat_of_nonneg hq0]
    exact Int.lt_ediv_add_one_mul_self _ hd
  · have : ((1000000000 : Int) / (unitNs u * p.period)).toNat ≤ 1000000000 := by omega
    omega

/-- Witness of C14: a period of 10 000 000 nanoseconds gives 100 Hz. -/
theorem sampleRate_formula_witness :
    ∃ r : Nat, exParser.sampleRate = some r ∧
      (r : Int) = 1000000000 / (unitNs "nanoseconds" * exParser.period) ∧
      (r : Int) * (unitNs "nanoseconds" * exParser.period) ≤ 1000000000 ∧
      1000000000 < ((r : Int) + 1) * (unitNs "nanoseconds" * exParser.period) ∧
      r < 2 ^ 32 :=
  sampleRate_formula exParser "nanoseconds" (by decide) (by decide) (by decide) (by decide)

/-- C15 (unknown sample rate, as the code has it). When the period is at most
0 or the period-type unit index is zero or negative, `sampleRate` returns
0. -/
theorem sampleRate_unknown (p : MoleculeParser)
    (h : p.period ≤ 0 ∨ p.periodType.unit ≤ 0) : p.sampleRate = some 0 := by
  unfold MoleculeParser.sampleRate
  rw [if_pos h]

/-- Witness of C15: a parser that has seen no period. -/
theorem sampleRate_unknown_witness :
    (NewStreamingParser exConfig).sampleRate = some 0 :=
  sampleRate_unknown (NewStreamingParser exConfig) (by decide)

/-- Counterexample to C15 as stated: with period 10 and the unit index 99,
which is not an index of the 8-entry string table, `sampleRate` does not
return 0 but faults on `p.strings[99]`. -/
theorem sampleRate_unit_out_of_table_counterexample :
    0 < exParserBadUnit.period ∧
    exParserBadUnit.strings.length = 8 ∧
    exParserBadUnit.periodType.unit = 99 ∧
    exParserBadUnit.sampleRate = none ∧
    exParserBadUnit.sampleRate ≠ some 0 := by
  decide

/-- C19 (division by zero in sampleRate). With the period `2 ^ 55` and the
period unit "seconds", both inside the claim's range, the divisor
`sampleUnit × period` is `5 ^ 9 × 2 ^ 64`, which wraps to 0 in 64-bit
arithmetic: `sampleRate` faults with an integer division by zero, and `put`
for a sampled type faults with it. -/
theorem sampleRate_divisor_wraps_to_zero :
    0 < exParserHugePeriod.period ∧
    exParserHugePeriod.period < 2 ^ 63 ∧
    exParserHugePeriod.string exParserHugePeriod.periodType.unit = some "seconds" ∧
    wrapInt64 (1000000000 * exParserHugePeriod.period) = 0 ∧
    exParserHugePeriod.sampleRate = none ∧
    exParserHugePeriod.put exEnv { type := 1, unit := 2 } [] [(["main"], 5)] ([], [])
      = (([], []), false, Outcome.panic) := by
  decide

/-! ## Series key -/

theorem foldl_set_get :
    ∀ (L : StringMap) (m : StringMap), (L.map Prod.fst).Nodup →
      ∀ k, StringMap.get (L.foldl (fun m kv => m.set kv.1 kv.2) m) k
        = (L.lookup k).or (m.get k) := by
  intro L
  induction L with
  | nil => intro m _ k; simp
  | cons kv rest ih =>
    intro m hnd k
    obtain ⟨k1, v1⟩ := kv
    rw [List.map_cons, List.nodup_cons] at hnd
    rw [List.foldl_cons, ih _ hnd.2, StringMap.get_set, List.lookup_cons]
    by_cases hk : k1 = k
    · subst hk
      have hnone : List.lookup k1 rest = none := by
        rw [List.lookup_eq_none_iff]
        intro kv hkv
        rw [bne_iff_ne]
        intro heq
        apply hnd.1
        rw [List.mem_map]
        exact ⟨kv, hkv, heq.symm⟩
      simp [hnone]
    · have hb : (k == k1) = false := beq_eq_false_iff_ne.mpr (fun e => hk e.symm)
      simp only [hk, if_false, hb]

/-- C16 (series key construction). For a static label map `L = p.labels`
(keys unique, as in a Go map), a sample-type name `n` and a resolved sample
label map `m`, the map `buildName` hands to `segment.NewKey` sends
"__name__" to `base ++ "." ++ n`, where `base` is `L["__name__"]` if present,
else `m["__name__"]` if present, else the empty string, and every other key
`k` to `L[k]` if `L` has it, else to `m[k]` if `m` has it; so the destination
name always ends in `"." ++ n`. -/
theorem buildName_spec (p : MoleculeParser) (n : String) (m : StringMap)
    (hnodup : (p.labels.map Prod.fst).Nodup) :
    (∀ k, (p.buildName n m).get k
      = if k = "__name__" then
          some ((p.labels.get "__name__").getD ((m.get "__name__").getD "") ++ "." ++ n)
        else (p.labels.get k).or (m.get k)) ∧
    ∃ base, (p.buildName n m).get "__name__" = some (base ++ "." ++ n) := by
  have hget : ∀ k, (p.buildName n m).get k
      = if k = "__name__" then
          some ((p.labels.get "__name__").getD ((m.get "__name__").getD "") ++ "." ++ n)
        else (p.labels.get k).or (m.get k) := by
    intro k
    unfold MoleculeParser.buildName
    dsimp only
    rw [StringMap.get_set, foldl_set_get p.labels m hnodup, foldl_set_get p.labels m hnodup]
    by_cases hk : k = "__name__"
    · subst hk
      simp only [if_true]
      rw [String.append_assoc]
      congr 2
      unfold StringMap.get
      cases List.lookup "__name__" p.labels with
      | none => simp
      | some v => simp
    · have hk1 : ¬ "__name__" = k := fun e => hk e.symm
      rw [if_neg hk1, if_neg hk]
      rfl
  refine ⟨hget, (p.labels.get "__name__").getD ((m.get "__name__").getD ""), ?_⟩
  rw [hget]
  simp only [if_true]

/-- Witness of C16: the static base name `app` and the sample label
`foo=bar` give the name `app.cpu`. -/
theorem buildName_spec_witness :
    (exParser.buildName "cpu" [("foo", "bar")]).get "__name__" = some "app.cpu" ∧
    (exParser.buildName "cpu" [("foo", "bar")]).get "foo" = some "bar" :=
  ⟨((buildName_spec exParser "cpu" [("foo", "bar")] (by decide)).1 "__name__").trans
      (by decide),
   ((buildName_spec exParser "cpu" [("foo", "bar")] (by decide)).1 "foo").trans (by decide)⟩

/-! ## Fail-fast walk -/

theorem runCalls_append {σ : Type}
    (fn : valueType → Labels → Tree → σ → σ × Bool × Outcome) :
    ∀ (a b : List (valueType × Labels × Tree)) (s : σ),
      runCalls fn (a ++ b) s
        = match runCalls fn a s with
          | (s1, Outcome.nil) => runCalls fn b s1
          | r => r := by
  intro a
  induction a with
  | nil => intro b s; rfl
  | cons e rest ih =>
    intro b s
    rw [List.cons_append]
    simp only [runCalls]
    rcases hfn : fn e.1 e.2.1 e.2.2 s with ⟨s1, keep, out⟩
    cases out with
    | nil =>
      dsimp only
      exact ih b s1
    | err msg => rfl
    | panic => rfl

theorem iterateEntries_runCalls {σ : Type}
    (fn : valueType → Labels → Tree → σ → σ × Bool × Outcome) (t : valueType) (stt : Int) :
    ∀ (es : List (Nat × LabelsCacheEntry)) (c : LabelsCache) (s : σ),
      (iterateEntries fn t stt es c s).2
        = runCalls fn (es.map fun he => (t, he.2.Labels, he.2.Tree)) s := by
  intro es
  induction es with
  | nil => intro c s; rfl
  | cons he rest ih =>
    intro c s
    obtain ⟨h, e⟩ := he
    rw [List.map_cons]
    unfold iterateEntries runCalls
    rcases hfn : fn t e.Labels e.Tree s with ⟨s1, keep, out⟩
    cases out with
    | nil => exact ih _ s1
    | err msg => rfl
    | panic => rfl

theorem iterateTypes_runCalls {σ : Type} (p : MoleculeParser)
    (fn : valueType → Labels → Tree → σ → σ × Bool × Outcome) :
    ∀ (todo c : LabelsCache) (s : σ),
      (MoleculeParser.iterateTypes p fn todo c s).2 = runCalls fn (p.visits todo) s := by
  intro todo
  induction todo with
  | nil => intro c s; rfl
  | cons tes rest ih =>
    intro c s
    obtain ⟨stt, es⟩ := tes
    unfold MoleculeParser.iterateTypes
    have hv : p.visits ((stt, es) :: rest)
        = (match p.resolveSampleType stt with
           | none => []
           | some t => es.map fun he => (t, he.2.Labels, he.2.Tree)) ++ p.visits rest := by
      unfold MoleculeParser.visits
      rw [List.flatMap_cons]
    rw [hv]
    cases hr : p.resolveSampleType stt with
    | none =>
      simp only [List.nil_append]
      exact ih c s
    | some t =>
      simp only
      rw [runCalls_append, ← iterateEntries_runCalls fn t stt es c s]
      rcases hit : iterateEntries fn t stt es c s with ⟨c1, s1, out⟩
      cases out with
      | nil => exact ih c1 s1
      | err msg => rfl
      | panic => rfl

theorem iterate_runCalls {σ : Type} (p : MoleculeParser) (newCache : LabelsCache)
    (fn : valueType → Labels → Tree → σ → σ × Bool × Outcome) (s : σ) :
    (p.iterate newCache fn s).2 = runCalls fn (p.visits newCache) s := by
  rw [← iterateTypes_runCalls p fn newCache newCache s]
  unfold MoleculeParser.iterate
  rcases MoleculeParser.iterateTypes p fn newCache newCache s with ⟨c1, s1, out⟩
  cases out <;> rfl

theorem runCalls_logged {σ : Type}
    (fn : valueType → Labels → Tree → σ → σ × Bool × Outcome) :
    ∀ (l log : List (valueType × Labels × Tree)) (s s1 : σ),
      runCalls fn l s = (s1, Outcome.nil) →
      runCalls (logged fn) l (s, log) = ((s1, log ++ l), Outcome.nil) := by
  intro l
  induction l with
  | nil =>
    intro log s s1 h
    simp only [runCalls, Prod.mk.injEq] at h
    rw [← h.1]
    simp [runCalls]
  | cons e rest ih =>
    intro log s s1 h
    unfold runCalls at h ⊢
    unfold logged
    rcases hfn : fn e.1 e.2.1 e.2.2 s with ⟨s2, keep, out⟩
    rw [hfn] at h
    cases out with
    | nil =>
      simp only at h ⊢
      have := ih (log ++ [e]) s2 s1 h
      unfold logged at this
      rw [this, List.append_assoc, List.singleton_append]
    | err msg => simp at h
    | panic => simp at h

/-- C17 (unknown metric configuration is fail-fast). For an entry whose
sample-type name has no entry in the configured `SampleTypes` map, `put`
returns the error "sample value type is unknown" and leaves the storage sink
and the previous generation as they were. And for every callback `fn`: if
`fn` succeeds on the entries `pre` that the walk visits first and then fails
with `out` on the entry `e`, `iterate` returns `out` with the state `fn` left
at `e`, has invoked `fn` on `pre` and `e` and on none of the entries `post`
that follow, and leaves the parser's fields as they were: `p.previousCache`
is not replaced. -/
theorem unknown_config_fail_fast (env : Env) (p : MoleculeParser) :
    (∀ (st : valueType) (l : Labels) (t : Tree) (s : PutState) (name : String),
      p.string st.type = some name → p.sampleTypes.lookup name = none →
      p.put env st l t s = (s, false, Outcome.err "sample value type is unknown")) ∧
    (∀ (σ : Type) (fn : valueType → Labels → Tree → σ → σ × Bool × Outcome)
      (newCache : LabelsCache) (s s1 : σ) (pre post : List (valueType × Labels × Tree))
      (e : valueType × Labels × Tree) (out : Outcome),
      p.visits newCache = pre ++ e :: post →
      runCalls fn pre s = (s1, Outcome.nil) →
      (fn e.1 e.2.1 e.2.2 s1).2.2 = out → out ≠ Outcome.nil →
      p.iterate newCache (logged fn) (s, [])
        = (p, ((fn e.1 e.2.1 e.2.2 s1).1, pre ++ [e]), out)) := by
  constructor
  · intro st l t s name hname hcfg
    unfold MoleculeParser.put
    simp only [hname, hcfg]
  · intro σ fn newCache s s1 pre post e out hvis hpre hfail hne
    have h2 : (p.iterate newCache (logged fn) (s, [])).2
        = (((fn e.1 e.2.1 e.2.2 s1).1, pre ++ [e]), out) := by
      rw [iterate_runCalls, hvis, runCalls_append,
        runCalls_logged fn pre [] s s1 hpre]
      simp only [List.nil_append]
      unfold runCalls logged
      rcases hfn : fn e.1 e.2.1 e.2.2 s1 with ⟨s2, keep, o⟩
      rw [hfn] at hfail
      simp only at hfail
      subst hfail
      cases o with
      | nil => exact absurd rfl hne
      | err msg => rfl
      | panic => rfl
    have h1 : (p.iterate newCache (logged fn) (s, [])).1 = p := by
      apply iterate_failure_previousCache
      rw [h2]
      exact hne
    exact Prod.ext h1 h2

/-- Witness of C17: with `cpu` not configured, the walk over the example
generation stops at the `cpu` entry; the `alloc_objects` entry is not
visited and nothing is written. -/
theorem unknown_config_fail_fast_witness :
    exParserNoCpu.iterate exNewCache (logged (exParserNoCpu.put exEnv)) (([], []), [])
      = (exParserNoCpu,
          ((([], []) : PutState),
            [({ type := 1, unit := 2 }, [{ k := 6, v := 7 }], [(["main", "foo"], 5)])]),
          Outcome.err "sample value type is unknown") :=
  (unknown_config_fail_fast exEnv exParserNoCpu).2 PutState (exParserNoCpu.put exEnv)
    exNewCache ([], []) ([], []) []
    [({ type := 3, unit := 4 }, [{ k := 6, v := 7 }], [(["main", "foo"], 9)])]
    ({ type := 1, unit := 2 }, [{ k := 6, v := 7 }], [(["main", "foo"], 5)])
    (Outcome.err "sample value type is unknown") (by decide) (by decide) (by decide)
    (by decide)

/-! ## A failed call and the previous generation -/

theorem setEntryTree_shape (h : Nat) (t : Tree) :
    ∀ es : List (Nat × LabelsCacheEntry),
      (setEntryTree h t es).map (fun he => (he.1, he.2.Labels))
        = es.map (fun he => (he.1, he.2.Labels)) := by
  intro es
  induction es with
  | nil => rfl
  | cons he rest ih =>
    obtain ⟨h1, e⟩ := he
    unfold setEntryTree
    by_cases hh : h1 = h
    · rw [if_pos hh]
      rfl
    · rw [if_neg hh, List.map_cons, List.map_cons, ih]

theorem setTree_shape (ty : Int) (h : Nat) (t : Tree) :
    ∀ c : LabelsCache, (c.setTree ty h t).shape = c.shape := by
  intro c
  induction c with
  | nil => rfl
  | cons tes rest ih =>
    obtain ⟨ty1, es⟩ := tes
    unfold LabelsCache.setTree
    by_cases hty : ty1 = ty
    · rw [if_pos hty]
      unfold LabelsCache.shape
      rw [List.map_cons, List.map_cons, setEntryTree_shape]
    · rw [if_neg hty]
      unfold LabelsCache.shape at ih ⊢
      rw [List.map_cons, List.map_cons, ih]

theorem putWrite_previous (env : Env) (p : MoleculeParser) (st : valueType) (l : Labels)
    (name : String) (cfg : SampleTypeConfig) (pi : PutInput) (s : PutState) :
    (p.putWrite env st l name cfg pi s).1.2 = s.2 := by
  rcases putWrite_cases env p st l name cfg pi s with h | ⟨pi1, _, h⟩ <;> rw [h]

theorem put_shape (env : Env) (p : MoleculeParser) (st : valueType) (l : Labels) (t : Tree)
    (s : PutState) : (p.put env st l t s).1.2.shape = s.2.shape := by
  unfold MoleculeParser.put
  split
  · rfl
  · split
    · rfl
    · dsimp only
      split
      · split
        · rfl
        · rw [putWrite_previous, setTree_shape]
      · rw [putWrite_previous]

theorem runCalls_invariant {σ : Type}
    (fn : valueType → Labels → Tree → σ → σ × Bool × Outcome) (I : σ → Prop)
    (hfn : ∀ t l tr s, I s → I (fn t l tr s).1) :
    ∀ (l : List (valueType × Labels × Tree)) (s : σ), I s → I (runCalls fn l s).1 := by
  intro l
  induction l with
  | nil => intro s hs; exact hs
  | cons e rest ih =>
    intro s hs
    have h1 := hfn e.1 e.2.1 e.2.2 s hs
    simp only [runCalls]
    rcases hf : fn e.1 e.2.1 e.2.2 s with ⟨s1, keep, out⟩
    rw [hf] at h1
    cases out with
    | nil => exact ih s1 h1
    | err msg => exact h1
    | panic => exact h1

theorem iterate_put_shape (env : Env) (p : MoleculeParser) (newCache : LabelsCache)
    (s : PutState) : (p.iterate newCache (p.put env) s).2.1.2.shape = s.2.shape := by
  rw [iterate_runCalls]
  exact runCalls_invariant (p.put env) (fun x => x.2.shape = s.2.shape)
    (fun t l tr x hx => (put_shape env p t l tr x).trans hx) _ s rfl

theorem parsePprofDecompressedBody_shape (env : Env) (p : MoleculeParser)
    (profile : Profile) (sink : Sink)
    (h : (p.parsePprofDecompressedBody env profile sink).2.2 ≠ Outcome.nil) :
    (p.parsePprofDecompressedBody env profile sink).1.previousCache.shape
      = p.previousCache.shape := by
  unfold MoleculeParser.parsePprofDecompressedBody at h ⊢
  have h1 := parseStructs_previousCache { p with strings := [], sampleTypesParsed := [] } profile
  dsimp only at h h1 ⊢
  rcases e1 : MoleculeParser.parseStructs { p with strings := [], sampleTypesParsed := [] }
    profile with ⟨p1, o1⟩
  rw [e1] at h h1
  simp only at h1
  cases o1 with
  | nil =>
    simp only at h ⊢
    have h2 := parseFunctionsAndLocations_previousCache p1 profile
    rcases e2 : p1.parseFunctionsAndLocations profile with ⟨p2, o2⟩
    rw [e2] at h h2
    simp only at h2
    cases o2 with
    | nil =>
      simp only at h ⊢
      have h3 := checkKnownSampleTypes_previousCache p2
      rcases e3 : p2.checkKnownSampleTypes with ⟨p3, o3⟩
      rw [e3] at h h3
      simp only at h3
      cases o3 with
      | nil =>
        simp only at h ⊢
        have h4 := parseSamples_previousCache env profile.samples profile.samplesEnd p3 []
        rcases e4 : MoleculeParser.parseSamples env profile.samples profile.samplesEnd p3 []
          with ⟨p4, c4, o4⟩
        rw [e4] at h h4
        simp only at h4
        cases o4 with
        | nil =>
          simp only at h ⊢
          have h5 := iterate_put_shape env p4 c4 (sink, p4.previousCache)
          rcases e5 : p4.iterate c4 (p4.put env) (sink, p4.previousCache) with ⟨p5, s5, o5⟩
          rw [e5] at h h5
          simp only at h5
          cases o5 with
          | nil => simp at h
          | err msg => simp only; rw [h5, h4, h3, h2, h1]
          | panic => simp only; rw [h5, h4, h3, h2, h1]
        | err msg => simp only; rw [h4, h3, h2, h1]
        | panic => simp only; rw [h4, h3, h2, h1]
      | err msg => simp only; rw [h3, h2, h1]
      | panic => simp only; rw [h3, h2, h1]
    | err msg => simp only; rw [h2, h1]
    | panic => simp only; rw [h2, h1]
  | err msg => simp only; rw [h1]
  | panic => simp only; rw [h1]

/-- What a failed call does keep: whenever `parsePprofDecompressed` returns an
error, `p.previousCache` has the metric types, hashes and label sets it had
before the call; no entry of the in-progress generation is published. Only
the trees of the previous generation may differ. -/
theorem failed_call_publishes_no_entry (env : Env) (p : MoleculeParser)
    (profile : Profile) (sink : Sink)
    (h : (p.parsePprofDecompressed env profile sink).2.2 ≠ none) :
    (p.parsePprofDecompressed env profile sink).1.previousCache.shape
      = p.previousCache.shape := by
  unfold MoleculeParser.parsePprofDecompressed at h ⊢
  have hb := parsePprofDecompressedBody_shape env p profile sink
  rcases e : p.parsePprofDecompressedBody env profile sink with ⟨p1, s1, out⟩
  rw [e] at h hb
  cases out with
  | nil => simp at h
  | err msg => exact hb (by simp)
  | panic => exact hb (by simp)

/-- A call whose first pass fails leaves the keys and label sets of the
example generation in place. -/
theorem failed_call_publishes_no_entry_example :
    (({ exParser with previousCache := exNewCache }).parsePprofDecompressed exEnv
        exBadProfile []).1.previousCache.shape = exNewCache.shape :=
  failed_call_publishes_no_entry exEnv { exParser with previousCache := exNewCache }
    exBadProfile [] (by decide)

/-- C2 (a failed call overwrites a tree of the previous generation). One
parser with `cpu` cumulative and two calls on the same profile (one sample,
value 5, labels `foo=bar`), the sink failing: the first call writes nothing
and leaves the tree with weight 5 in `p.previousCache`; the second call
returns the sink's error, and `p.previousCache` then holds, under the same key
and labels, the diff that `put` wrote into the previous tree before it called
the sink, so it is not the generation held before the call. -/
theorem failed_call_overwrites_previous_tree :
    ((NewStreamingParser exConfigTwoCalls).parsePprofDecompressed exEnvFailing
        exProfileB []).2.2 = none ∧
    exAfterFirstCall.previousCache
      = [(2, [(2004, { Labels := [{ k := 1, v := 4 }], Tree := [(["main"], 5)] })])] ∧
    (exAfterFirstCall.parsePprofDecompressed exEnvFailing exProfileB []).2.2
      = some "disk full" ∧
    (exAfterFirstCall.parsePprofDecompressed exEnvFailing exProfileB []).1.previousCache
      = [(2, [(2004, { Labels := [{ k := 1, v := 4 }], Tree := [(["main"], 0)] })])] ∧
    (exAfterFirstCall.parsePprofDecompressed exEnvFailing exProfileB []).1.previousCache
      ≠ exAfterFirstCall.previousCache := by
  decide

end Streaming
